import Mathlib

/-!
# Token ring simulation: shallow embedding of `node_main` and `main`

Sources: `tokenRing.h`, `tokenRing_setup.c` (`node_main`, the semaphore
helpers) and `tokenRing_main.c` (`main`).

Conventions of the embedding.

* A `char` or `unsigned char` object is modelled by its byte value, a natural
  number in `0 .. 255`.  The only comparisons the program makes on `char`
  fields are `received_pkt.to == node_id` and `received_pkt.from != node_id`
  with `0 <= node_id < N_NODES`; for such `node_id` the outcome is the same
  whether `char` is signed or unsigned, so the byte value is compared.
* C arrays are functions from the index; every array access of the program is
  guarded by its bound, and an access outside the bound makes the step
  undefined (`none`).
* The `int` counters are integers; an increment at `INT_MAX` is undefined
  (`none`).  `pkt_index` and `pkt_bytes_received` never become negative and
  stay far below `INT_MAX`, they are natural numbers.
* `printf` and `usleep` are not modelled.
-/

namespace TokenRing

/-! ## tokenRing.h -/

def N_NODES : Nat := 4

def TOKEN : Nat := 0xFF

def NUM_EDGE_SEMS : Nat := 2 * N_NODES

def EMPTY_SEM (i : Nat) : Nat := 2 * i

def FULL_SEM (i : Nat) : Nat := 2 * i + 1

/-- Number of elements of `char data[250]` in `struct data_pkt`. -/
def DATA_LEN : Nat := 250

/-- Number of elements of `unsigned char pkt_buffer[20]` in `node_main`. -/
def PKT_BUFFER_LEN : Nat := 20

def INT_MAX : Int := 2147483647

/-- The `struct data_pkt` of tokenRing.h (`to` and `from` are written `to_` and `from_`). -/
structure data_pkt where
  token_flag : Nat
  to_ : Nat
  from_ : Nat
  length : Nat
  data : Nat → Nat

/-- The `struct shared_ring` of tokenRing.h. -/
structure shared_ring where
  ring : Nat → Nat
  pending : Nat → data_pkt
  pending_valid : Nat → Int
  sent_count : Nat → Int
  received_count : Nat → Int
  total_packets_transmitted : Int
  terminate : Int

/-! ## tokenRing_setup.c, `node_main` -/

/-- The local variables of `node_main`.  `received_pkt` is the block variable of
line 175; it is kept in the state so that the frame decoded last can be
observed. -/
structure NodeLocal where
  sending : Int
  current_pkt : data_pkt
  pkt_index : Nat
  pkt_buffer : Nat → Nat
  pkt_bytes_received : Nat
  received_pkt : data_pkt

/-- The value of `incoming_edge` (line 94), `(node_id - 1 + N_NODES) % N_NODES`
in `int` arithmetic; `node_id` is not negative, and the sum is formed before
the difference so that it can be taken in the natural numbers. -/
def incoming_edge (node_id : Nat) : Nat := (node_id + N_NODES - 1) % N_NODES

/-- The value of `outgoing_edge` (line 95). -/
def outgoing_edge (node_id : Nat) : Nat := node_id

/-- The `x++` of an `int`: undefined at `INT_MAX`. -/
def inc_int (x : Int) : Option Int :=
  if x < INT_MAX then some (x + 1) else none

/-- The send a loop pass is about to make on the outgoing edge, named by the
`sem_timed_wait_op(semId, EMPTY_SEM(outgoing_edge), 1)` it waits in:
line 121 (a byte of the frame being sent), line 133 (the token after the
frame), line 163 (the token passed on) and line 192 (a data byte relayed). -/
inductive SendReq where
  | txData (pkt_byte : Nat)
  | txToken
  | fwdToken
  | fwdData (byte : Nat)
  deriving DecidableEq

/-- The byte written to `ring[outgoing_edge]` once the wait succeeds
(lines 126, 138, 168, 197). -/
def SendReq.byte : SendReq → Nat
  | SendReq.txData pkt_byte => pkt_byte
  | SendReq.txToken => TOKEN
  | SendReq.fwdToken => TOKEN
  | SendReq.fwdData byte => byte

/-- Lines 110-119: the byte of `current_pkt` at `pkt_index`. -/
def pkt_byte_at (current_pkt : data_pkt) (pkt_index : Nat) : Option Nat :=
  if pkt_index = 0 then some current_pkt.token_flag
  else if pkt_index = 1 then some current_pkt.to_
  else if pkt_index = 2 then some current_pkt.from_
  else if pkt_index = 3 then some current_pkt.length
  else if pkt_index - 4 < DATA_LEN then some (current_pkt.data (pkt_index - 4))
  else none

/-- Lines 107-132: the sending branch up to its semaphore wait. -/
def on_sending (node_id : Nat) (l : NodeLocal) (shm : shared_ring) :
    Option (NodeLocal × shared_ring × SendReq) :=
  let total_length := 4 + l.current_pkt.length
  if l.pkt_index < total_length then
    match pkt_byte_at l.current_pkt l.pkt_index with
    | some pkt_byte => some (l, shm, SendReq.txData pkt_byte)
    | none => none
  else
    match inc_int (shm.sent_count node_id), inc_int shm.total_packets_transmitted with
    | some s, some t =>
      some ({ l with sending := 0 },
            { shm with sent_count := Function.update shm.sent_count node_id s,
                       total_packets_transmitted := t },
            SendReq.txToken)
    | _, _ => none

/-- The `memcpy(received_pkt.data, &pkt_buffer[4], received_pkt.length)` of
line 180: `n` bytes are read from `pkt_buffer[4 ..]` and written to
`data[0 ..]`; both ranges have to lie inside their arrays. -/
def memcpy_payload (data : Nat → Nat) (pkt_buffer : Nat → Nat) (n : Nat) :
    Option (Nat → Nat) :=
  if 4 + n ≤ PKT_BUFFER_LEN ∧ n ≤ DATA_LEN then
    some (fun i => if i < n then pkt_buffer (4 + i) else data i)
  else none

/-- Lines 153-189: what a station in the receiving branch does with the `byte`
it has read from its incoming edge, up to the semaphore wait of the send that
follows (`none` in the third component: the pass ends without a send). -/
def on_byte (node_id : Nat) (l : NodeLocal) (shm : shared_ring) (byte : Nat) :
    Option (NodeLocal × shared_ring × Option SendReq) :=
  if byte = TOKEN then
    if shm.pending_valid node_id ≠ 0 then
      some ({ l with current_pkt := shm.pending node_id, sending := 1, pkt_index := 0 },
            { shm with pending_valid := Function.update shm.pending_valid node_id 0 },
            none)
    else
      some (l, shm, some SendReq.fwdToken)
  else if l.pkt_bytes_received < PKT_BUFFER_LEN then
    let pkt_buffer := Function.update l.pkt_buffer l.pkt_bytes_received byte
    let pkt_bytes_received := l.pkt_bytes_received + 1
    if pkt_bytes_received = 4 + pkt_buffer 3 then
      match memcpy_payload l.received_pkt.data pkt_buffer (pkt_buffer 3) with
      | some data =>
        let received_pkt : data_pkt :=
          { token_flag := pkt_buffer 0, to_ := pkt_buffer 1, from_ := pkt_buffer 2,
            length := pkt_buffer 3, data := data }
        if received_pkt.to_ = node_id ∧ received_pkt.from_ ≠ node_id then
          match inc_int (shm.received_count node_id) with
          | some r =>
            some ({ l with pkt_buffer := pkt_buffer, pkt_bytes_received := 0,
                           received_pkt := received_pkt },
                  { shm with received_count := Function.update shm.received_count node_id r },
                  some (SendReq.fwdData byte))
          | none => none
        else
          some ({ l with pkt_buffer := pkt_buffer, pkt_bytes_received := 0,
                         received_pkt := received_pkt },
                shm, some (SendReq.fwdData byte))
      | none => none
    else
      some ({ l with pkt_buffer := pkt_buffer, pkt_bytes_received := pkt_bytes_received },
            shm, some (SendReq.fwdData byte))
  else none

/-- The local effect of a send that succeeded: `pkt_index++` (line 128) after a
byte of the frame, nothing after the other three sends. -/
def after_send (l : NodeLocal) : SendReq → NodeLocal
  | SendReq.txData _ => { l with pkt_index := l.pkt_index + 1 }
  | _ => l

/-- One pass of the loop in the sending branch (lines 105-141) when the
semaphore wait succeeds; the list is what the pass writes to
`ring[outgoing_edge]`. -/
def send_pass (node_id : Nat) (l : NodeLocal) (shm : shared_ring) :
    Option (NodeLocal × shared_ring × List Nat) :=
  match on_sending node_id l shm with
  | some (l1, shm1, k) => some (after_send l1 k, shm1, [k.byte])
  | none => none

/-- One pass of the loop in the receiving branch (lines 143-199) when `byte` is
received and the semaphore wait of the send, if there is one, succeeds. -/
def listen_pass (node_id : Nat) (l : NodeLocal) (shm : shared_ring) (byte : Nat) :
    Option (NodeLocal × shared_ring × List Nat) :=
  match on_byte node_id l shm byte with
  | some (l1, shm1, some k) => some (after_send l1 k, shm1, [k.byte])
  | some (l1, shm1, none) => some (l1, shm1, [])
  | none => none

/-- Passes of the loop while `sending` is set, every send succeeding; at most
`fuel` passes.  The list is the sequence of bytes written to the outgoing
edge. -/
def transmit (node_id : Nat) : Nat → NodeLocal → shared_ring →
    Option (NodeLocal × shared_ring × List Nat)
  | 0, l, shm => some (l, shm, [])
  | fuel + 1, l, shm =>
    if l.sending = 0 then some (l, shm, [])
    else
      match send_pass node_id l shm with
      | some (l1, shm1, out1) =>
        match transmit node_id fuel l1 shm1 with
        | some (l2, shm2, out2) => some (l2, shm2, out1 ++ out2)
        | none => none
      | none => none

/-- The bytes of `bytes` are received one after the other by a station that is
not sending, every send succeeding.  A station that has started to send does
not read its incoming edge: the bytes left stay there. -/
def feed (node_id : Nat) : NodeLocal → shared_ring → List Nat →
    Option (NodeLocal × shared_ring × List Nat)
  | l, shm, [] => some (l, shm, [])
  | l, shm, byte :: bytes =>
    if l.sending ≠ 0 then some (l, shm, [])
    else
      match listen_pass node_id l shm byte with
      | some (l1, shm1, out1) =>
        match feed node_id l1 shm1 bytes with
        | some (l2, shm2, out2) => some (l2, shm2, out1 ++ out2)
        | none => none
      | none => none

/-- The first `n` bytes of `data`, in order. -/
def payload (data : Nat → Nat) (n : Nat) : List Nat := (List.range n).map data

/-- The serialisation of a frame: what the sending branch emits for it, the 4
header bytes and `length` bytes of `data`. -/
def wire (f : data_pkt) : List Nat :=
  [f.token_flag, f.to_, f.from_, f.length] ++ payload f.data f.length

/-! ## The ring: `main` and the `N_NODES` processes running `node_main`

A state of the whole program holds the values of the semaphore set, the shared
memory, and for every station its local variables and the place it is at in
`node_main`.  A step of a station is one semaphore operation together with the
statements that follow it up to the next semaphore operation; the statements
before the first wait of a pass (lines 104-120, 130-132) are a step of their
own.  The read-modify-write of a counter is one step: the race on
`total_packets_transmitted` is not modelled. -/

/-- The places of `node_main` a station can be at between two steps. -/
inductive PC where
  /-- Line 104, before the test of `shm_ptr->terminate`. -/
  | loop
  /-- Inside `sem_timed_wait_op(semId, EMPTY_SEM(outgoing_edge), 1)` at line
  121, 133, 163 or 192. -/
  | waitSend (k : SendReq)
  /-- The wait has returned 0: before the write of `ring[outgoing_edge]` at line
  126, 138, 168 or 197. -/
  | doSend (k : SendReq)
  /-- Inside `sem_timed_wait_op(semId, FULL_SEM(incoming_edge), 1)` at line 144. -/
  | waitRecv
  /-- The wait has returned 0: before the read of `ring[incoming_edge]` at line 150. -/
  | doRecv
  /-- After the loop (lines 204-206). -/
  | exited
  deriving DecidableEq

/-- A state of the program: the semaphore set `semId` (the value of each
semaphore, by index), the shared memory, and each station's local variables
and place. -/
structure System where
  sem : Nat → Nat
  shm : shared_ring
  loc : Nat → NodeLocal
  pc : Nat → PC

/-- The next step of station `node_id`, a semaphore wait that returns 0
included.  `none`: the station is blocked in a wait, has left the loop, or the
step is undefined. -/
def node_step (node_id : Nat) (s : System) : Option System :=
  match s.pc node_id with
  | PC.loop =>
    if s.shm.terminate ≠ 0 then
      some { s with pc := Function.update s.pc node_id PC.exited }
    else if (s.loc node_id).sending ≠ 0 then
      match on_sending node_id (s.loc node_id) s.shm with
      | some (l, shm, k) =>
        some { s with shm := shm, loc := Function.update s.loc node_id l,
                      pc := Function.update s.pc node_id (PC.waitSend k) }
      | none => none
    else
      some { s with pc := Function.update s.pc node_id PC.waitRecv }
  | PC.waitSend k =>
    if 0 < s.sem (EMPTY_SEM (outgoing_edge node_id)) then
      some { s with
        sem := Function.update s.sem (EMPTY_SEM (outgoing_edge node_id))
                 (s.sem (EMPTY_SEM (outgoing_edge node_id)) - 1),
        pc := Function.update s.pc node_id (PC.doSend k) }
    else none
  | PC.doSend k =>
    some { s with
      shm := { s.shm with ring := Function.update s.shm.ring (outgoing_edge node_id) k.byte },
      sem := Function.update s.sem (FULL_SEM (outgoing_edge node_id))
               (s.sem (FULL_SEM (outgoing_edge node_id)) + 1),
      loc := Function.update s.loc node_id (after_send (s.loc node_id) k),
      pc := Function.update s.pc node_id PC.loop }
  | PC.waitRecv =>
    if 0 < s.sem (FULL_SEM (incoming_edge node_id)) then
      some { s with
        sem := Function.update s.sem (FULL_SEM (incoming_edge node_id))
                 (s.sem (FULL_SEM (incoming_edge node_id)) - 1),
        pc := Function.update s.pc node_id PC.doRecv }
    else none
  | PC.doRecv =>
    match on_byte node_id (s.loc node_id) s.shm (s.shm.ring (incoming_edge node_id)) with
    | some (l, shm, r) =>
      some { sem := Function.update s.sem (EMPTY_SEM (incoming_edge node_id))
                      (s.sem (EMPTY_SEM (incoming_edge node_id)) + 1),
             shm := shm,
             loc := Function.update s.loc node_id l,
             pc := Function.update s.pc node_id
                     (match r with
                      | some k => PC.waitSend k
                      | none => PC.loop) }
    | none => none
  | PC.exited => none

/-- The semaphore wait station `node_id` is in returns -1 (`EAGAIN`), which it
can do only while the semaphore is 0: `break` when `terminate` is set,
`continue` otherwise (lines 121-125, 133-137, 144-148, 163-167, 192-196). -/
def timeout_step (node_id : Nat) (s : System) : Option System :=
  match s.pc node_id with
  | PC.waitSend _ =>
    if s.sem (EMPTY_SEM (outgoing_edge node_id)) = 0 then
      some { s with pc := Function.update s.pc node_id
                            (if s.shm.terminate ≠ 0 then PC.exited else PC.loop) }
    else none
  | PC.waitRecv =>
    if s.sem (FULL_SEM (incoming_edge node_id)) = 0 then
      some { s with pc := Function.update s.pc node_id
                            (if s.shm.terminate ≠ 0 then PC.exited else PC.loop) }
    else none
  | _ => none

/-- The steps of the program once the stations run. -/
inductive Action where
  /-- Station `node_id` makes its next step. -/
  | node (node_id : Nat)
  /-- The semaphore wait of station `node_id` times out. -/
  | timeout (node_id : Nat)
  /-- The parent puts `pkt` in the mailbox of `node` (tokenRing_main.c, lines
  113 and 127-128); which frame and which station is the caller's choice. -/
  | inject (node : Nat) (pkt : data_pkt)
  /-- The parent sets `terminate` (tokenRing_main.c, line 140). -/
  | terminate

/-- One step of the program; `none` when the step cannot be taken. -/
def step (a : Action) (s : System) : Option System :=
  match a with
  | Action.node node_id => if node_id < N_NODES then node_step node_id s else none
  | Action.timeout node_id => if node_id < N_NODES then timeout_step node_id s else none
  | Action.inject node pkt =>
    if node < N_NODES ∧ s.shm.pending_valid node = 0 then
      some { s with shm := { s.shm with
        pending := Function.update s.shm.pending node pkt,
        pending_valid := Function.update s.shm.pending_valid node 1 } }
    else none
  | Action.terminate => some { s with shm := { s.shm with terminate := 1 } }

/-- The steps of a list, in order. -/
def run : List Action → System → Option System
  | [], s => some s
  | a :: acts, s =>
    match step a s with
    | some s1 => run acts s1
    | none => none

/-- tokenRing_main.c, lines 66-80: every `EMPTY` semaphore is set to 1 and every
`FULL` semaphore to 0. -/
def sem_setval : Nat → Nat :=
  (List.range N_NODES).foldl
    (fun sem i => Function.update (Function.update sem (EMPTY_SEM i) 1) (FULL_SEM i) 0)
    (fun _ => 0)

/-- A frame of zero bytes. -/
def zero_pkt : data_pkt :=
  { token_flag := 0, to_ := 0, from_ := 0, length := 0, data := fun _ => 0 }

/-- tokenRing_main.c, lines 83-90: the shared memory after the `memset`. -/
def shm_zero : shared_ring :=
  { ring := fun _ => 0, pending := fun _ => zero_pkt, pending_valid := fun _ => 0,
    sent_count := fun _ => 0, received_count := fun _ => 0,
    total_packets_transmitted := 0, terminate := 0 }

/-- The local variables of a station entering the loop (lines 96-102):
`sending`, `pkt_index` and `pkt_bytes_received` are 0, the other variables are
not initialised and keep what `u` holds. -/
def local_init (u : NodeLocal) : NodeLocal :=
  { u with sending := 0, pkt_index := 0, pkt_bytes_received := 0 }

/-- The state before line 92 of tokenRing_main.c: semaphores set, shared memory
zeroed; the stations, forked later, are put at the head of their loop already
(they take no step before `init`). -/
def pre_seed (u : Nat → NodeLocal) : System :=
  { sem := sem_setval, shm := shm_zero, loc := fun i => local_init (u i),
    pc := fun _ => PC.loop }

/-- Line 92 of tokenRing_main.c, `sem_wait_op(semId, EMPTY_SEM(N_NODES - 1))`. -/
def seed_wait (s : System) : Option System :=
  if 0 < s.sem (EMPTY_SEM (N_NODES - 1)) then
    some { s with sem := Function.update s.sem (EMPTY_SEM (N_NODES - 1))
                           (s.sem (EMPTY_SEM (N_NODES - 1)) - 1) }
  else none

/-- Lines 93-94 of tokenRing_main.c: the token is written to
`ring[N_NODES - 1]` and `FULL_SEM(N_NODES - 1)` is signalled. -/
def seed_write (s : System) : System :=
  { s with
    shm := { s.shm with ring := Function.update s.shm.ring (N_NODES - 1) TOKEN },
    sem := Function.update s.sem (FULL_SEM (N_NODES - 1))
             (s.sem (FULL_SEM (N_NODES - 1)) + 1) }

/-- The state `main` has built when the stations start (after line 106): the
semaphores set, the memory zeroed, the token seeded on edge `N_NODES - 1`; `u`
gives the contents of the variables that are not initialised. -/
def init (u : Nat → NodeLocal) : System :=
  match seed_wait (pre_seed u) with
  | some s => seed_write s
  | none => pre_seed u

/-- The station that reads edge `e`: the one whose incoming edge is `e`. -/
def reader (e : Nat) : Nat := (e + 1) % N_NODES

/-- Edge `e` holds a TOKEN byte that has not been consumed: the byte of the slot
is TOKEN and either `FULL(e)` is up or the reader has taken `FULL(e)` and has
not read the slot yet. -/
def edge_has_token (s : System) (e : Nat) : Bool :=
  decide (s.shm.ring e = TOKEN) &&
    (decide (0 < s.sem (FULL_SEM e)) || decide (s.pc (reader e) = PC.doRecv))

/-- The two sends of the token (lines 133 and 163). -/
def SendReq.is_token : SendReq → Bool
  | SendReq.txToken => true
  | SendReq.fwdToken => true
  | _ => false

/-- The station is in a send of the token: in the wait, or between the wait and
the write. -/
def pc_has_token : PC → Bool
  | PC.waitSend k => k.is_token
  | PC.doSend k => k.is_token
  | _ => false

/-- Station `i` has consumed the token and not written it back: it is sending a
frame, or it is in one of the two sends of the token. -/
def node_has_token (s : System) (i : Nat) : Bool :=
  decide ((s.loc i).sending ≠ 0) || pc_has_token (s.pc i)

/-- The number of `j < n` with `p j`. -/
def cnt (p : Nat → Bool) (n : Nat) : Nat := ((List.range n).filter p).length

/-- The number of tokens in the ring: the edges that hold an unconsumed TOKEN
byte and the stations that hold the token. -/
def token_count (s : System) : Nat :=
  cnt (edge_has_token s) N_NODES + cnt (node_has_token s) N_NODES

/-- None of the bytes the frame puts on the wire is TOKEN. -/
def tok_free (p : data_pkt) : Bool := (wire p).all (fun b => decide (b ≠ TOKEN))

/-- The step keeps the token where the code keeps it: it is not a timeout of a
wait to send the token (lines 133 and 163), and a frame it injects puts no
TOKEN byte on the wire. -/
def keeps_token (a : Action) (s : System) : Bool :=
  match a with
  | Action.timeout i => !pc_has_token (s.pc i)
  | Action.inject _ pkt => tok_free pkt
  | _ => true

/-- Every step of the run, taken from `s` on, keeps the token. -/
def all_keep : List Action → System → Bool
  | [], _ => true
  | a :: acts, s =>
    keeps_token a s &&
      (match step a s with
       | some s1 => all_keep acts s1
       | none => true)

/-- What holds of `sending` and of the byte to send while a station is in a
send. -/
def send_ok (sending : Int) : SendReq → Prop
  | SendReq.txData b => sending ≠ 0 ∧ b ≠ TOKEN
  | SendReq.fwdData b => sending = 0 ∧ b ≠ TOKEN
  | SendReq.txToken => sending = 0
  | SendReq.fwdToken => sending = 0

/-- What holds of `sending` at each place of `node_main`. -/
def place_ok (sending : Int) : PC → Prop
  | PC.loop => True
  | PC.exited => True
  | PC.waitRecv => sending = 0
  | PC.doRecv => sending = 0
  | PC.waitSend k => send_ok sending k
  | PC.doSend k => send_ok sending k

/-- The frames station `i` can put on the wire hold no TOKEN byte, and its
place agrees with `sending`. -/
def node_ok (s : System) (i : Nat) : Prop :=
  ((s.loc i).sending ≠ 0 → tok_free (s.loc i).current_pkt = true) ∧
  (s.shm.pending_valid i ≠ 0 → tok_free (s.shm.pending i) = true) ∧
  place_ok (s.loc i).sending (s.pc i)

/-- A local state of zero bytes, for the variables that are not initialised. -/
def zero_local : NodeLocal :=
  { sending := 0, current_pkt := zero_pkt, pkt_index := 0, pkt_buffer := fun _ => 0,
    pkt_bytes_received := 0, received_pkt := zero_pkt }

/-- The frame the receiving branch decodes from `pkt_buffer` at lines 176-180;
`old` is what the variable `received_pkt` held before (the bytes of `data`
that the `memcpy` leaves alone). -/
def decoded (old : data_pkt) (pkt_buffer : Nat → Nat) : data_pkt :=
  { token_flag := pkt_buffer 0, to_ := pkt_buffer 1, from_ := pkt_buffer 2,
    length := pkt_buffer 3,
    data := fun i => if i < pkt_buffer 3 then pkt_buffer (4 + i) else old.data i }

/-- The array `pkt_buffer` after the bytes of a list have been written to it
from index `n` on, one `pkt_buffer[pkt_bytes_received++] = byte` each. -/
def store (pkt_buffer : Nat → Nat) (n : Nat) : List Nat → Nat → Nat
  | [] => pkt_buffer
  | b :: bs => store (Function.update pkt_buffer n b) (n + 1) bs

/-! ## Frames used in the examples -/

/-- The frame of the scenario: `{to: 2, from: 0, length: 5, data: "HELLO"}`,
`token_flag` 0 as `main` sets it, the rest of `data` zero. -/
def hello_pkt : data_pkt :=
  { token_flag := 0, to_ := 2, from_ := 0, length := 5,
    data := fun i => [72, 69, 76, 76, 79].getD i 0 }

/-- A frame from station 0 to station 2 whose one payload byte is 0xFF. -/
def ff_pkt : data_pkt :=
  { token_flag := 0, to_ := 2, from_ := 0, length := 1, data := fun _ => 0xFF }

/-- A frame from station 0 to station 2 with `n` payload bytes, all `'A'`. -/
def long_pkt (n : Nat) : data_pkt :=
  { token_flag := 0, to_ := 2, from_ := 0, length := n, data := fun _ => 65 }

/-- A frame from station 0 to station 1 without payload. -/
def empty_pkt : data_pkt :=
  { token_flag := 0, to_ := 1, from_ := 0, length := 0, data := fun _ => 0 }

/-- A station that has captured `f` and is about to send its first byte. -/
def sender_of (f : data_pkt) : NodeLocal :=
  { zero_local with sending := 1, current_pkt := f, pkt_index := 0 }

/-! ## Edges: turns and events -/

/-- The station is between a successful wait on `EMPTY(outgoing_edge)` and its
write of the slot. -/
def is_doSend : PC → Bool
  | PC.doSend _ => true
  | _ => false

/-- 1 when the writer of edge `e`, station `e`, holds the slot for writing. -/
def writing (s : System) (e : Nat) : Nat := if is_doSend (s.pc e) then 1 else 0

/-- 1 when the reader of edge `e` holds the slot for reading. -/
def reading (s : System) (e : Nat) : Nat := if s.pc (reader e) = PC.doRecv then 1 else 0

/-- The slot of edge `e` is in exactly one of four hands: free (`EMPTY(e)` is
1), being written, filled (`FULL(e)` is 1), being read. -/
def edge_ok (s : System) (e : Nat) : Prop :=
  s.sem (EMPTY_SEM e) + s.sem (FULL_SEM e) + writing s e + reading s e = 1

/-- The slot of edge `e` holds a byte that has been written and not read. -/
def slot_full (s : System) (e : Nat) : Bool :=
  decide (0 < s.sem (FULL_SEM e)) || decide (s.pc (reader e) = PC.doRecv)

/-- A write or a read of the slot of an edge. -/
inductive EdgeEvent where
  | write
  | read
  deriving DecidableEq

/-- Step `a` taken in state `s` writes `ring[e]` (lines 126, 138, 168, 197). -/
def writes_edge (a : Action) (s : System) (e : Nat) : Bool :=
  match a with
  | Action.node i => decide (outgoing_edge i = e) && is_doSend (s.pc i)
  | _ => false

/-- Step `a` taken in state `s` reads `ring[e]` (line 150). -/
def reads_edge (a : Action) (s : System) (e : Nat) : Bool :=
  match a with
  | Action.node i => decide (incoming_edge i = e) && decide (s.pc i = PC.doRecv)
  | _ => false

/-- The writes and reads of `ring[e]` made by the steps of a list, in order. -/
def edge_events (e : Nat) : List Action → System → List EdgeEvent
  | [], _ => []
  | a :: acts, s =>
    match step a s with
    | some s1 =>
      (if writes_edge a s e then [EdgeEvent.write]
       else if reads_edge a s e then [EdgeEvent.read] else []) ++ edge_events e acts s1
    | none => []

/-- The write of `ring[N_NODES - 1]` that `main` makes at line 93. -/
def seed_events (e : Nat) : List EdgeEvent :=
  if e = N_NODES - 1 then [EdgeEvent.write] else []

/-! ## Runs used in the examples -/

/-- The state a run ends in (the start when a step cannot be taken). -/
def end_state (acts : List Action) (s : System) : System := (run acts s).getD s

/-- Station `i` takes `n` steps in a row. -/
def steps (n i : Nat) : List Action := List.replicate n (Action.node i)

/-- The five steps of a pass that receives a byte and sends it on: to the wait
of line 144, the wait returns, the byte is read, the wait of the send returns,
the byte is written. -/
def relay (i : Nat) : List Action := steps 5 i

/-- The three steps of a pass that sends: to the wait, the wait returns, the
byte is written (for a station that listens and captures the token: to the
wait, the wait returns, the token is read). -/
def send1 (i : Nat) : List Action := steps 3 i

/-- Station 0 captures the token and sends `pkt`, a frame of 4 bytes on the
wire; stations 1, 2 and 3 relay what reaches them.  At the end the last byte
of the frame is still in `ring[0]`. -/
def four_bytes_out (pkt : data_pkt) : List Action :=
  [Action.inject 0 pkt] ++ send1 0 ++
  send1 0 ++ relay 1 ++ relay 2 ++ relay 3 ++
  send1 0 ++ relay 1 ++ relay 2 ++
  send1 0 ++ relay 1 ++
  send1 0

/-- After `four_bytes_out`, station 0 finds its frame sent, counts it and waits
to send the token (line 133); `ring[0]` is still full and the wait times
out. -/
def loss_trace : List Action :=
  four_bytes_out empty_pkt ++ [Action.node 0, Action.timeout 0]

/-- A frame from station 0 to station 1 whose one payload byte is 0xFF. -/
def ff_pkt1 : data_pkt :=
  { token_flag := 0, to_ := 1, from_ := 0, length := 1, data := fun _ => 0xFF }

/-- After `four_bytes_out`, station 1 takes the 4th byte from `ring[0]` (three
steps) and station 0 sends the 5th byte, the payload byte 0xFF; no wait
times out. -/
def dup_trace : List Action :=
  four_bytes_out ff_pkt1 ++ send1 1 ++ send1 0

/-- After `four_bytes_out`, station 1 takes the 4th byte of the frame from
`ring[0]` and waits to send it on (line 192); `ring[1]` is still full and the
wait times out. -/
def byte_loss_trace : List Action :=
  four_bytes_out empty_pkt ++ send1 1 ++ [Action.timeout 1]

/-- After `four_bytes_out`: station 1 takes the 4th byte of the frame from
`ring[0]`; station 0 counts its frame and writes the token to `ring[0]`;
station 2 takes the 3rd byte from `ring[1]`; station 1 writes the 4th byte to
`ring[1]` and then reads the token from `ring[0]`.  It has no frame pending and
waits to pass the token on (line 163) while `ring[1]` is still full. -/
def token_at_full_edge : List Action :=
  four_bytes_out empty_pkt ++ send1 1 ++ send1 0 ++ send1 2 ++ steps 2 1 ++ send1 1

/-! ## Properties of one station -/

theorem inc_int_of_lt {x : Int} (h : x < INT_MAX) : inc_int x = some (x + 1) := by
  simp [inc_int, h]

theorem wire_length (f : data_pkt) : (wire f).length = 4 + f.length := by
  simp [wire, payload]; omega

theorem pkt_byte_at_wire (f : data_pkt) (k : Nat) (hk : k < 4 + f.length)
    (hL : f.length ≤ DATA_LEN) : pkt_byte_at f k = (wire f)[k]? := by
  unfold pkt_byte_at wire payload
  rcases k with _ | _ | _ | _ | k
  · simp
  · simp
  · simp
  · simp
  · have h1 : k < f.length := by omega
    have h2 : k < DATA_LEN := by omega
    simp [h1, h2]

theorem on_byte_incomplete (node_id : Nat) (l : NodeLocal) (shm : shared_ring) (b : Nat)
    (hb : b ≠ TOKEN) (hn : l.pkt_bytes_received < PKT_BUFFER_LEN)
    (hc : l.pkt_bytes_received + 1 ≠
      4 + Function.update l.pkt_buffer l.pkt_bytes_received b 3) :
    on_byte node_id l shm b =
      some ({ l with pkt_buffer := Function.update l.pkt_buffer l.pkt_bytes_received b,
                     pkt_bytes_received := l.pkt_bytes_received + 1 },
            shm, some (SendReq.fwdData b)) := by
  unfold on_byte
  simp only [hb, hn, hc, if_true, if_false]

theorem on_byte_complete (node_id : Nat) (l : NodeLocal) (shm : shared_ring) (b : Nat)
    (hb : b ≠ TOKEN) (hn : l.pkt_bytes_received < PKT_BUFFER_LEN)
    (hc : l.pkt_bytes_received + 1 =
      4 + Function.update l.pkt_buffer l.pkt_bytes_received b 3)
    (hr : shm.received_count node_id < INT_MAX) :
    on_byte node_id l shm b =
      some ({ l with pkt_buffer := Function.update l.pkt_buffer l.pkt_bytes_received b,
                     pkt_bytes_received := 0,
                     received_pkt := decoded l.received_pkt
                                       (Function.update l.pkt_buffer l.pkt_bytes_received b) },
            (if Function.update l.pkt_buffer l.pkt_bytes_received b 1 = node_id ∧
                Function.update l.pkt_buffer l.pkt_bytes_received b 2 ≠ node_id then
              { shm with
                received_count := Function.update shm.received_count node_id
                                    (shm.received_count node_id + 1) }
             else shm),
            some (SendReq.fwdData b)) := by
  have hm : memcpy_payload l.received_pkt.data
      (Function.update l.pkt_buffer l.pkt_bytes_received b)
      (Function.update l.pkt_buffer l.pkt_bytes_received b 3) =
      some (fun i => if i < Function.update l.pkt_buffer l.pkt_bytes_received b 3 then
        Function.update l.pkt_buffer l.pkt_bytes_received b (4 + i)
        else l.received_pkt.data i) := by
    unfold memcpy_payload
    have h1 : 4 + Function.update l.pkt_buffer l.pkt_bytes_received b 3 ≤ PKT_BUFFER_LEN := by
      omega
    have h2 : Function.update l.pkt_buffer l.pkt_bytes_received b 3 ≤ DATA_LEN := by
      unfold PKT_BUFFER_LEN at h1; unfold DATA_LEN; omega
    simp only [h1, h2, and_self, if_true]
  unfold on_byte
  simp only [hb, hn, hc, if_true, if_false, hm, inc_int_of_lt hr, decoded]
  split_ifs <;> rfl

theorem on_byte_overrun (node_id : Nat) (l : NodeLocal) (shm : shared_ring) (b : Nat)
    (hb : b ≠ TOKEN) (hn : PKT_BUFFER_LEN ≤ l.pkt_bytes_received) :
    on_byte node_id l shm b = none := by
  unfold on_byte
  have : ¬ l.pkt_bytes_received < PKT_BUFFER_LEN := by omega
  simp only [hb, this, if_false]

theorem store_apply (bs : List Nat) : ∀ (buf : Nat → Nat) (n i : Nat),
    store buf n bs i = if n ≤ i ∧ i < n + bs.length then bs.getD (i - n) 0 else buf i := by
  induction bs with
  | nil =>
    intro buf n i
    have h : ¬ (n ≤ i ∧ i < n + ([] : List Nat).length) := by
      simp only [List.length_nil]; omega
    simp only [store, h, if_false]
  | cons b bs ih =>
    intro buf n i
    rw [store, ih]
    by_cases h1 : n + 1 ≤ i
    · have h2 : n ≤ i := by omega
      have h3 : i ≠ n := by omega
      have h4 : i - n = (i - (n + 1)) + 1 := by omega
      simp only [h1, h2, true_and, List.length_cons, h4, List.getD_cons_succ,
        Function.update_noteq h3]
      split_ifs <;> first | rfl | omega
    · by_cases h5 : i = n
      · subst h5
        simp
      · have h6 : ¬ n ≤ i := by omega
        simp [h1, h6, Function.update_noteq h5]

theorem store_getD (bs : List Nat) (buf : Nat → Nat) (i : Nat) (hi : i < bs.length) :
    store buf 0 bs i = bs.getD i 0 := by
  rw [store_apply]
  have : 0 ≤ i ∧ i < 0 + bs.length := by omega
  rw [if_pos this, Nat.sub_zero]

theorem store_snoc (bs : List Nat) : ∀ (buf : Nat → Nat) (n b : Nat),
    store buf n (bs ++ [b]) = Function.update (store buf n bs) (n + bs.length) b := by
  induction bs with
  | nil => intro buf n b; simp [store]
  | cons a bs ih =>
    intro buf n b
    show store (Function.update buf n a) (n + 1) (bs ++ [b]) = _
    rw [ih]
    have : n + 1 + bs.length = n + (a :: bs).length := by
      simp only [List.length_cons]; omega
    rw [this]
    rfl

theorem listen_pass_data (node_id : Nat) (l l1 : NodeLocal) (shm shm1 : shared_ring) (b : Nat)
    (h : on_byte node_id l shm b = some (l1, shm1, some (SendReq.fwdData b))) :
    listen_pass node_id l shm b = some (l1, shm1, [b]) := by
  simp [listen_pass, h, after_send, SendReq.byte]

theorem feed_incomplete (node_id : Nat) (bs : List Nat) :
    ∀ (l : NodeLocal) (shm : shared_ring), l.sending = 0 → (∀ b ∈ bs, b ≠ TOKEN) →
      l.pkt_bytes_received + bs.length ≤ PKT_BUFFER_LEN →
      (∀ j, j < bs.length → l.pkt_bytes_received + j + 1 ≠
        4 + store l.pkt_buffer l.pkt_bytes_received (bs.take (j + 1)) 3) →
      feed node_id l shm bs =
        some ({ l with pkt_buffer := store l.pkt_buffer l.pkt_bytes_received bs,
                       pkt_bytes_received := l.pkt_bytes_received + bs.length },
              shm, bs) := by
  induction bs with
  | nil => intro l shm _ _ _ _; rfl
  | cons b bs ih =>
    intro l shm hs hb hn hc
    have hb0 : b ≠ TOKEN := hb b (List.mem_cons_self _ _)
    have hn0 : l.pkt_bytes_received < PKT_BUFFER_LEN := by
      simp only [List.length_cons] at hn; omega
    have hc0 := hc 0 (by simp)
    simp only [List.take_succ_cons, List.take_zero, store, Nat.add_zero] at hc0
    have h1 := listen_pass_data node_id l _ shm _ b (on_byte_incomplete node_id l shm b hb0 hn0 hc0)
    rw [feed, if_neg (not_not.mpr hs), h1]
    simp only
    rw [ih]
    · simp only [store, List.length_cons, List.singleton_append]
      have : l.pkt_bytes_received + 1 + bs.length = l.pkt_bytes_received + (bs.length + 1) := by
        omega
      rw [this]
    · exact hs
    · intro x hx; exact hb x (List.mem_cons_of_mem _ hx)
    · simp only [List.length_cons] at hn ⊢; omega
    · intro j hj
      have := hc (j + 1) (by simp only [List.length_cons]; omega)
      simp only [List.take_succ_cons, store] at this
      simp only
      intro h; apply this; omega

theorem feed_sending (node_id : Nat) (l : NodeLocal) (shm : shared_ring) (bs : List Nat)
    (hs : l.sending ≠ 0) : feed node_id l shm bs = some (l, shm, []) := by
  cases bs with
  | nil => rfl
  | cons b bs => rw [feed, if_pos hs]

theorem feed_append (node_id : Nat) (xs ys : List Nat) :
    ∀ (l : NodeLocal) (shm : shared_ring),
      feed node_id l shm (xs ++ ys) =
        match feed node_id l shm xs with
        | some (l1, shm1, o1) =>
          (match feed node_id l1 shm1 ys with
           | some (l2, shm2, o2) => some (l2, shm2, o1 ++ o2)
           | none => none)
        | none => none := by
  induction xs with
  | nil =>
    intro l shm
    simp only [List.nil_append, feed]
    cases feed node_id l shm ys with
    | none => rfl
    | some r => rfl
  | cons x xs ih =>
    intro l shm
    by_cases hs : l.sending = 0
    · show feed node_id l shm (x :: (xs ++ ys)) = _
      rw [feed, feed, if_neg (not_not.mpr hs), if_neg (not_not.mpr hs)]
      cases h1 : listen_pass node_id l shm x with
      | none => rfl
      | some r =>
        obtain ⟨l1, shm1, o1⟩ := r
        simp only
        rw [ih]
        cases h2 : feed node_id l1 shm1 xs with
        | none => rfl
        | some r2 =>
          obtain ⟨l2, shm2, o2⟩ := r2
          simp only
          cases h3 : feed node_id l2 shm2 ys with
          | none => rfl
          | some r3 => simp only [List.append_assoc]
    · rw [feed_sending node_id l shm _ hs, feed_sending node_id l shm _ hs]
      simp only [feed_sending node_id l shm _ hs, List.nil_append]

theorem feed_singleton (node_id : Nat) (l l1 : NodeLocal) (shm shm1 : shared_ring) (b : Nat)
    (o : List Nat) (hs : l.sending = 0) (h : listen_pass node_id l shm b = some (l1, shm1, o)) :
    feed node_id l shm [b] = some (l1, shm1, o) := by
  rw [feed, if_neg (not_not.mpr hs), h]
  simp only [feed, List.append_nil]

/-- Bytes that stop short of a whole frame, received from an empty buffer: they
are buffered and relayed, nothing else changes. -/
theorem feed_short (node_id : Nat) (bs : List Nat) (l : NodeLocal) (shm : shared_ring)
    (hs : l.sending = 0) (hn : l.pkt_bytes_received = 0) (htok : ∀ b ∈ bs, b ≠ TOKEN)
    (hlen : bs.length ≤ PKT_BUFFER_LEN)
    (hshort : bs.length < 4 ∨ bs.length < 4 + bs.getD 3 0) :
    feed node_id l shm bs =
      some ({ l with pkt_buffer := store l.pkt_buffer 0 bs,
                     pkt_bytes_received := bs.length },
            shm, bs) := by
  have h := feed_incomplete node_id bs l shm hs htok (by rw [hn]; omega)
    (by
      intro j hj
      rw [hn]
      by_cases h4 : 4 ≤ j + 1
      · have hl : 3 < (bs.take (j + 1)).length := by
          rw [List.length_take]; omega
        rw [store_getD _ _ 3 hl, List.getD_eq_getElem?_getD,
          List.getElem?_take_of_lt (by omega), ← List.getD_eq_getElem?_getD]
        omega
      · omega)
  rw [h, hn]
  simp only [Nat.zero_add]

/-- A whole frame received from an empty buffer: it is decoded at its last
byte, counted when it is addressed to the station and comes from another one,
and the buffer is empty again; every byte is relayed. -/
theorem feed_whole (node_id : Nat) (bs : List Nat) (l : NodeLocal) (shm : shared_ring)
    (hs : l.sending = 0) (hn : l.pkt_bytes_received = 0) (htok : ∀ b ∈ bs, b ≠ TOKEN)
    (hlen : bs.length ≤ PKT_BUFFER_LEN) (hfull : bs.length = 4 + bs.getD 3 0)
    (hr : shm.received_count node_id < INT_MAX) :
    feed node_id l shm bs =
      some ({ l with pkt_buffer := store l.pkt_buffer 0 bs,
                     pkt_bytes_received := 0,
                     received_pkt := decoded l.received_pkt (store l.pkt_buffer 0 bs) },
            (if bs.getD 1 0 = node_id ∧ bs.getD 2 0 ≠ node_id then
              { shm with
                received_count := Function.update shm.received_count node_id
                                    (shm.received_count node_id + 1) }
             else shm),
            bs) := by
  have hne : bs ≠ [] := by
    intro h; rw [h] at hfull; simp at hfull
  obtain ⟨b, hb⟩ : ∃ b, bs = bs.dropLast ++ [b] :=
    ⟨bs.getLast hne, (List.dropLast_append_getLast hne).symm⟩
  have hdl : bs.dropLast.length = bs.length - 1 := List.length_dropLast bs
  have hbt : b ≠ TOKEN := by
    apply htok; rw [hb]; simp
  have hst : Function.update (store l.pkt_buffer 0 bs.dropLast) (bs.length - 1) b =
      store l.pkt_buffer 0 bs := by
    have h := store_snoc bs.dropLast l.pkt_buffer 0 b
    rw [← hb, hdl, Nat.zero_add] at h
    exact h.symm
  have h1 := store_getD bs l.pkt_buffer 1 (by omega)
  have h2 := store_getD bs l.pkt_buffer 2 (by omega)
  have h3 := store_getD bs l.pkt_buffer 3 (by omega)
  have hshort : bs.dropLast.length < 4 ∨ bs.dropLast.length < 4 + bs.dropLast.getD 3 0 := by
    by_cases h4 : bs.dropLast.length < 4
    · exact Or.inl h4
    · right
      have : bs.dropLast.getD 3 0 = bs.getD 3 0 := by
        rw [List.dropLast_eq_take, List.getD_eq_getElem?_getD,
          List.getElem?_take_of_lt (by omega), ← List.getD_eq_getElem?_getD]
      rw [this]; omega
  have hpre := feed_short node_id bs.dropLast l shm hs hn
    (fun x hx => htok x (List.mem_of_mem_dropLast hx)) (by omega) hshort
  have hob := on_byte_complete node_id
    { l with pkt_buffer := store l.pkt_buffer 0 bs.dropLast,
             pkt_bytes_received := bs.length - 1 } shm b hbt
    (by show bs.length - 1 < PKT_BUFFER_LEN; omega)
    (by show bs.length - 1 + 1 = 4 + Function.update
          (store l.pkt_buffer 0 bs.dropLast) (bs.length - 1) b 3
        rw [hst, h3]; omega) hr
  simp only [hst] at hob
  rw [h1, h2] at hob
  have hf1 := feed_singleton node_id
    { l with pkt_buffer := store l.pkt_buffer 0 bs.dropLast,
             pkt_bytes_received := bs.length - 1 } _ shm _ b _ hs
    (listen_pass_data _ _ _ _ _ _ hob)
  have hfeed := feed_append node_id bs.dropLast [b] l shm
  rw [hpre, hdl] at hfeed
  simp only at hfeed
  rw [hf1] at hfeed
  simp only at hfeed
  rw [← hb] at hfeed
  exact hfeed

theorem wire_getD_zero (f : data_pkt) : (wire f).getD 0 0 = f.token_flag := by
  simp [wire]

theorem wire_getD_one (f : data_pkt) : (wire f).getD 1 0 = f.to_ := by
  simp [wire]

theorem wire_getD_two (f : data_pkt) : (wire f).getD 2 0 = f.from_ := by
  simp [wire]

theorem wire_getD_three (f : data_pkt) : (wire f).getD 3 0 = f.length := by
  simp [wire]

theorem wire_getD_payload (f : data_pkt) (i : Nat) (hi : i < f.length) :
    (wire f).getD (i + 4) 0 = f.data i := by
  simp [wire, payload, hi]

theorem decoded_store_wire (old f : data_pkt) (buf : Nat → Nat) :
    decoded old (store buf 0 (wire f)) =
      { f with data := fun i => if i < f.length then f.data i else old.data i } := by
  have hl := wire_length f
  have h0 : store buf 0 (wire f) 0 = f.token_flag := by
    rw [store_getD _ _ 0 (by omega), wire_getD_zero]
  have h1 : store buf 0 (wire f) 1 = f.to_ := by
    rw [store_getD _ _ 1 (by omega), wire_getD_one]
  have h2 : store buf 0 (wire f) 2 = f.from_ := by
    rw [store_getD _ _ 2 (by omega), wire_getD_two]
  have h3 : store buf 0 (wire f) 3 = f.length := by
    rw [store_getD _ _ 3 (by omega), wire_getD_three]
  unfold decoded
  rw [h0, h1, h2, h3]
  congr 1
  funext i
  by_cases hi : i < f.length
  · rw [if_pos hi, if_pos hi, store_getD _ _ (4 + i) (by omega), Nat.add_comm 4 i,
      wire_getD_payload f i hi]
  · rw [if_neg hi, if_neg hi]

/-- The bytes of a whole frame received from an empty buffer. -/
theorem feed_wire (node_id : Nat) (f : data_pkt) (l : NodeLocal) (shm : shared_ring)
    (hs : l.sending = 0) (hn : l.pkt_bytes_received = 0)
    (htok : ∀ b ∈ wire f, b ≠ TOKEN) (hL : 4 + f.length ≤ PKT_BUFFER_LEN)
    (hr : shm.received_count node_id < INT_MAX) :
    feed node_id l shm (wire f) =
      some ({ l with pkt_buffer := store l.pkt_buffer 0 (wire f),
                     pkt_bytes_received := 0,
                     received_pkt :=
                       { f with data := fun i =>
                           if i < f.length then f.data i else l.received_pkt.data i } },
            (if f.to_ = node_id ∧ f.from_ ≠ node_id then
              { shm with
                received_count := Function.update shm.received_count node_id
                                    (shm.received_count node_id + 1) }
             else shm),
            wire f) := by
  have h := feed_whole node_id (wire f) l shm hs hn htok (by rw [wire_length]; exact hL)
    (by rw [wire_length, wire_getD_three]) hr
  rw [decoded_store_wire, wire_getD_one, wire_getD_two] at h
  exact h

/-- The sending branch from any cursor: the rest of the frame, then the token. -/
theorem transmit_from (node_id : Nat) (f : data_pkt) (shm : shared_ring)
    (hL : f.length ≤ DATA_LEN) (hsc : shm.sent_count node_id < INT_MAX)
    (htc : shm.total_packets_transmitted < INT_MAX) (m : Nat) :
    ∀ (l : NodeLocal) (fuel : Nat), l.sending ≠ 0 → l.current_pkt = f →
      l.pkt_index + m = 4 + f.length → m + 1 ≤ fuel →
      transmit node_id fuel l shm =
        some ({ l with sending := 0, pkt_index := 4 + f.length },
              { shm with
                sent_count := Function.update shm.sent_count node_id
                                (shm.sent_count node_id + 1),
                total_packets_transmitted := shm.total_packets_transmitted + 1 },
              (wire f).drop l.pkt_index ++ [TOKEN]) := by
  induction m with
  | zero =>
    intro l fuel hs hf hk hfuel
    obtain ⟨fuel, rfl⟩ : ∃ n, fuel = n + 1 := ⟨fuel - 1, by omega⟩
    have hk2 : l.pkt_index = 4 + f.length := by omega
    have hon : on_sending node_id l shm =
        some ({ l with sending := 0 },
              { shm with
                sent_count := Function.update shm.sent_count node_id
                                (shm.sent_count node_id + 1),
                total_packets_transmitted := shm.total_packets_transmitted + 1 },
              SendReq.txToken) := by
      unfold on_sending
      have : ¬ l.pkt_index < 4 + l.current_pkt.length := by rw [hf]; omega
      simp only [this, if_false, inc_int_of_lt hsc, inc_int_of_lt htc]
    have hdrop : (wire f).drop l.pkt_index = [] := by
      apply List.drop_eq_nil_of_le; rw [wire_length]; omega
    rw [transmit, if_neg hs, send_pass, hon]
    simp only [after_send, SendReq.byte]
    have ht : ∀ (l1 : NodeLocal) (shm1 : shared_ring), l1.sending = 0 →
        transmit node_id fuel l1 shm1 = some (l1, shm1, []) := by
      intro l1 shm1 h1
      cases fuel with
      | zero => rfl
      | succ n => rw [transmit, if_pos h1]
    rw [ht _ _ rfl, hdrop, ← hk2]
    rfl
  | succ m ih =>
    intro l fuel hs hf hk hfuel
    obtain ⟨fuel, rfl⟩ : ∃ n, fuel = n + 1 := ⟨fuel - 1, by omega⟩
    have hlt : l.pkt_index < 4 + f.length := by omega
    obtain ⟨b, hb⟩ : ∃ b, (wire f)[l.pkt_index]? = some b := by
      have : l.pkt_index < (wire f).length := by rw [wire_length]; exact hlt
      exact ⟨_, List.getElem?_eq_getElem this⟩
    have hon : on_sending node_id l shm = some (l, shm, SendReq.txData b) := by
      unfold on_sending
      simp only [hf, hlt, if_true, pkt_byte_at_wire f _ hlt hL, hb]
    have hdrop : (wire f).drop l.pkt_index = b :: (wire f).drop (l.pkt_index + 1) := by
      have hlen : l.pkt_index < (wire f).length := by rw [wire_length]; exact hlt
      rw [List.drop_eq_getElem_cons hlen]
      congr 1
      have := List.getElem?_eq_getElem hlen
      rw [hb] at this
      exact (Option.some.inj this).symm
    rw [transmit, if_neg hs, send_pass, hon]
    simp only [after_send, SendReq.byte]
    rw [ih { l with pkt_index := l.pkt_index + 1 } fuel hs hf
      (by show l.pkt_index + 1 + m = 4 + f.length; omega) (by omega), hdrop]
    rfl

/-- The sending branch from cursor 0. -/
theorem transmit_frame (node_id : Nat) (l : NodeLocal) (shm : shared_ring) (fuel : Nat)
    (hs : l.sending ≠ 0) (hi : l.pkt_index = 0) (hL : l.current_pkt.length ≤ DATA_LEN)
    (hsc : shm.sent_count node_id < INT_MAX)
    (htc : shm.total_packets_transmitted < INT_MAX)
    (hfuel : 4 + l.current_pkt.length + 1 ≤ fuel) :
    transmit node_id fuel l shm =
      some ({ l with sending := 0, pkt_index := 4 + l.current_pkt.length },
            { shm with
              sent_count := Function.update shm.sent_count node_id
                              (shm.sent_count node_id + 1),
              total_packets_transmitted := shm.total_packets_transmitted + 1 },
            wire l.current_pkt ++ [TOKEN]) := by
  have h := transmit_from node_id l.current_pkt shm hL hsc htc (4 + l.current_pkt.length)
    l fuel hs rfl (by rw [hi]; omega) hfuel
  rw [hi, List.drop_zero] at h
  exact h

/-! ## Claims about one station -/

/-- C5 (transmission).  A station in TRANSMITTING mode with cursor 0 and a
captured frame of length `L <= 250`, every send succeeding, writes to its
outgoing edge exactly `token_flag, to, from, length, data[0], ..., data[L-1]`
and then `TOKEN`; `sent_count[self]` and `total_packets_transmitted` grow by
exactly 1, no other counter changes, and the station ends in LISTENING mode.
(`fuel` bounds the number of loop passes; `4 + L + 1` passes are enough.  The
two counters are below `INT_MAX`, where `++` is defined.) -/
theorem transmission (node_id : Nat) (l : NodeLocal) (shm : shared_ring) (fuel : Nat)
    (hs : l.sending ≠ 0) (hi : l.pkt_index = 0) (hL : l.current_pkt.length ≤ 250)
    (hsc : shm.sent_count node_id < INT_MAX)
    (htc : shm.total_packets_transmitted < INT_MAX)
    (hfuel : 4 + l.current_pkt.length + 1 ≤ fuel) :
    ∃ l1 shm1,
      transmit node_id fuel l shm =
        some (l1, shm1,
          [l.current_pkt.token_flag, l.current_pkt.to_, l.current_pkt.from_,
            l.current_pkt.length] ++
          payload l.current_pkt.data l.current_pkt.length ++ [TOKEN]) ∧
      l1.sending = 0 ∧
      shm1.sent_count node_id = shm.sent_count node_id + 1 ∧
      shm1.total_packets_transmitted = shm.total_packets_transmitted + 1 ∧
      (∀ j, j ≠ node_id → shm1.sent_count j = shm.sent_count j) ∧
      shm1.received_count = shm.received_count ∧
      shm1.pending_valid = shm.pending_valid := by
  refine ⟨_, _, transmit_frame node_id l shm fuel hs hi hL hsc htc hfuel, rfl, ?_, rfl, ?_, rfl,
    rfl⟩
  · simp only [Function.update_same]
  · intro j hj
    simp only [Function.update_noteq hj]

/-- C5, at the frame of the scenario sent by station 0. -/
theorem transmission_witness :
    ∃ l1 shm1,
      transmit 0 10 (sender_of hello_pkt) shm_zero =
        some (l1, shm1, [0, 2, 0, 5, 72, 69, 76, 76, 79, 255]) ∧
      l1.sending = 0 ∧
      shm1.sent_count 0 = 1 ∧
      shm1.total_packets_transmitted = 1 ∧
      (∀ j, j ≠ 0 → shm1.sent_count j = shm_zero.sent_count j) ∧
      shm1.received_count = shm_zero.received_count ∧
      shm1.pending_valid = shm_zero.pending_valid :=
  transmission 0 (sender_of hello_pkt) shm_zero 10 (by decide) rfl (by decide) (by decide)
    (by decide) (by decide)

/-- The pass that receives `TOKEN`, the wait of line 163 returning 0: with
`pending_valid[self]` set the station copies `pending[self]` to its captured
frame, clears `pending_valid[self]`, sets the cursor to 0, enters TRANSMITTING
mode and writes nothing; otherwise it writes `TOKEN` to its outgoing edge and
stays as it is.  The reassembly buffer and the counters are the same in both
cases. -/
theorem listen_pass_token (node_id : Nat) (l : NodeLocal) (shm : shared_ring) :
    listen_pass node_id l shm TOKEN =
      if shm.pending_valid node_id ≠ 0 then
        some ({ l with current_pkt := shm.pending node_id, sending := 1, pkt_index := 0 },
              { shm with pending_valid := Function.update shm.pending_valid node_id 0 }, [])
      else some (l, shm, [TOKEN]) := by
  unfold listen_pass on_byte
  by_cases h : shm.pending_valid node_id = 0
  · simp [h, after_send, SendReq.byte]
  · simp [h]

/-- C7 (relay rule).  A station in LISTENING mode that receives a data byte
`b` (not `TOKEN`) asks to send `b` itself on its outgoing edge, and writes `b`
when the send succeeds, whatever the buffer holds, whether or not `b` completes
a frame and whoever the frame is for; it stays in LISTENING mode.  (The append
of line 173 is inside `pkt_buffer`, and `received_count[self]` is below
`INT_MAX`.) -/
theorem relay_rule (node_id : Nat) (l : NodeLocal) (shm : shared_ring) (b : Nat)
    (hs : l.sending = 0) (hb : b ≠ TOKEN) (hn : l.pkt_bytes_received < PKT_BUFFER_LEN)
    (hr : shm.received_count node_id < INT_MAX) :
    ∃ l1 shm1,
      on_byte node_id l shm b = some (l1, shm1, some (SendReq.fwdData b)) ∧
      listen_pass node_id l shm b = some (l1, shm1, [b]) ∧
      l1.sending = 0 := by
  by_cases hc : l.pkt_bytes_received + 1 =
      4 + Function.update l.pkt_buffer l.pkt_bytes_received b 3
  · have h := on_byte_complete node_id l shm b hb hn hc hr
    exact ⟨_, _, h, listen_pass_data _ _ _ _ _ _ h, hs⟩
  · have h := on_byte_incomplete node_id l shm b hb hn hc
    exact ⟨_, _, h, listen_pass_data _ _ _ _ _ _ h, hs⟩

/-- C7, at station 2 receiving the last byte of the frame of the scenario. -/
theorem relay_rule_witness :
    ∃ l1 shm1,
      on_byte 2 { zero_local with pkt_buffer := store (fun _ => 0) 0 [0, 2, 0, 5, 72, 69, 76, 76],
                                  pkt_bytes_received := 8 } shm_zero 79 =
        some (l1, shm1, some (SendReq.fwdData 79)) ∧
      listen_pass 2 { zero_local with
          pkt_buffer := store (fun _ => 0) 0 [0, 2, 0, 5, 72, 69, 76, 76],
          pkt_bytes_received := 8 } shm_zero 79 = some (l1, shm1, [79]) ∧
      l1.sending = 0 :=
  relay_rule 2 _ shm_zero 79 (by decide) (by decide) (by decide) (by decide)

/-- C8 (receive counting).  A station in LISTENING mode with an empty
reassembly buffer receives the data bytes `bs`, which do not run past the end
of the first frame and fit `pkt_buffer`.  Every byte is relayed; the frame is
complete exactly when `bs` has `4 + bs[3]` bytes, `bs[3]` the declared length:
then the buffer is empty again and `received_count[self]` has grown by 1 if and
only if `bs[1] == self` and `bs[2] != self`; as long as the frame is not
complete, `bs` is all buffered and `received_count[self]` is as before.  No
other entry of `received_count`, and neither `sent_count` nor
`total_packets_transmitted`, changes. -/
theorem receive_counting (node_id : Nat) (l : NodeLocal) (shm : shared_ring) (bs : List Nat)
    (hs : l.sending = 0) (hn : l.pkt_bytes_received = 0) (htok : ∀ b ∈ bs, b ≠ TOKEN)
    (hlen : bs.length ≤ PKT_BUFFER_LEN)
    (hone : bs.length < 4 ∨ bs.length ≤ 4 + bs.getD 3 0)
    (hr : shm.received_count node_id < INT_MAX) :
    ∃ l1 shm1,
      feed node_id l shm bs = some (l1, shm1, bs) ∧
      l1.sending = 0 ∧
      l1.pkt_bytes_received = (if bs.length = 4 + bs.getD 3 0 then 0 else bs.length) ∧
      shm1.received_count node_id = shm.received_count node_id +
        (if bs.length = 4 + bs.getD 3 0 ∧ bs.getD 1 0 = node_id ∧ bs.getD 2 0 ≠ node_id
         then 1 else 0) ∧
      (∀ j, j ≠ node_id → shm1.received_count j = shm.received_count j) ∧
      shm1.sent_count = shm.sent_count ∧
      shm1.total_packets_transmitted = shm.total_packets_transmitted := by
  by_cases hc : bs.length = 4 + bs.getD 3 0
  · have h := feed_whole node_id bs l shm hs hn htok hlen hc hr
    by_cases ha : bs.getD 1 0 = node_id ∧ bs.getD 2 0 ≠ node_id
    · rw [if_pos ha] at h
      refine ⟨_, _, h, hs, ?_, ?_, ?_, rfl, rfl⟩
      · rw [if_pos hc]
      · rw [if_pos ⟨hc, ha⟩]
        simp only [Function.update_same]
      · intro j hj
        simp only [Function.update_noteq hj]
    · rw [if_neg ha] at h
      refine ⟨_, _, h, hs, ?_, ?_, ?_, rfl, rfl⟩
      · rw [if_pos hc]
      · rw [if_neg (fun h => ha h.2)]
        simp only [Int.add_zero]
      · intro j _
        rfl
  · have hshort : bs.length < 4 ∨ bs.length < 4 + bs.getD 3 0 := by omega
    have h := feed_short node_id bs l shm hs hn htok hlen hshort
    refine ⟨_, _, h, hs, ?_, ?_, ?_, rfl, rfl⟩
    · rw [if_neg hc]
    · rw [if_neg (fun h => hc h.1)]
      simp only [Int.add_zero]
    · intro j _
      rfl

/-- C8, at station 2 receiving the 9 bytes of the frame of the scenario. -/
theorem receive_counting_witness :
    ∃ l1 shm1,
      feed 2 zero_local shm_zero [0, 2, 0, 5, 72, 69, 76, 76, 79] =
        some (l1, shm1, [0, 2, 0, 5, 72, 69, 76, 76, 79]) ∧
      l1.sending = 0 ∧
      l1.pkt_bytes_received = 0 ∧
      shm1.received_count 2 = 1 ∧
      (∀ j, j ≠ 2 → shm1.received_count j = shm_zero.received_count j) ∧
      shm1.sent_count = shm_zero.sent_count ∧
      shm1.total_packets_transmitted = shm_zero.total_packets_transmitted :=
  receive_counting 2 zero_local shm_zero [0, 2, 0, 5, 72, 69, 76, 76, 79] (by decide)
    (by decide) (by decide) (by decide) (by decide) (by decide)

/-- C3, as amended: delivery round trip for frames that fit the reassembly
buffer and hold no `TOKEN` byte.  Stations `A != B`, a frame from `A` to `B`
of length `L <= 16` none of whose bytes on the wire is `TOKEN`: the `4 + L`
bytes that `A` emits for it before the token, received one at a time by `B` in
LISTENING mode with an empty buffer (every send succeeding), make
`received_count[B]` grow by exactly 1, and the frame `B` decodes has the header
and the `L` payload bytes of the frame sent. -/
theorem delivery_round_trip (A B : Nat) (f : data_pkt) (lA l : NodeLocal)
    (shmA shm : shared_ring) (fuel : Nat)
    (_hA : A < N_NODES) (_hB : B < N_NODES) (hAB : A ≠ B)
    (hto : f.to_ = B) (hfrom : f.from_ = A) (hL : f.length ≤ 16)
    (htok : ∀ b ∈ wire f, b ≠ TOKEN)
    (hsA : lA.sending ≠ 0) (hfA : lA.current_pkt = f) (hiA : lA.pkt_index = 0)
    (hsc : shmA.sent_count A < INT_MAX) (htc : shmA.total_packets_transmitted < INT_MAX)
    (hfuel : 4 + f.length + 1 ≤ fuel)
    (hs : l.sending = 0) (hn : l.pkt_bytes_received = 0)
    (hr : shm.received_count B < INT_MAX) :
    ∃ out lA1 shmA1 l1 shm1 out1,
      transmit A fuel lA shmA = some (lA1, shmA1, out ++ [TOKEN]) ∧
      out.length = 4 + f.length ∧
      feed B l shm out = some (l1, shm1, out1) ∧
      shm1.received_count B = shm.received_count B + 1 ∧
      l1.received_pkt.token_flag = f.token_flag ∧
      l1.received_pkt.to_ = f.to_ ∧
      l1.received_pkt.from_ = f.from_ ∧
      l1.received_pkt.length = f.length ∧
      (∀ i, i < f.length → l1.received_pkt.data i = f.data i) := by
  have hL2 : 4 + f.length ≤ PKT_BUFFER_LEN := by unfold PKT_BUFFER_LEN; omega
  have htx := transmit_frame A lA shmA fuel hsA hiA
    (by rw [hfA]; unfold DATA_LEN; omega) hsc htc (by rw [hfA]; exact hfuel)
  rw [hfA] at htx
  have hfw := feed_wire B f l shm hs hn htok hL2 hr
  have haddr : f.to_ = B ∧ f.from_ ≠ B := ⟨hto, by rw [hfrom]; exact hAB⟩
  rw [if_pos haddr] at hfw
  refine ⟨wire f, _, _, _, _, _, htx, wire_length f, hfw, ?_, rfl, rfl, rfl, rfl, ?_⟩
  · simp only [Function.update_same]
  · intro i hi
    show (if i < f.length then f.data i else l.received_pkt.data i) = f.data i
    rw [if_pos hi]

/-- C3 as amended, at the scenario: `{to: 2, from: 0, length: 5, data: "HELLO"}`. -/
theorem delivery_round_trip_witness :
    ∃ out lA1 shmA1 l1 shm1 out1,
      transmit 0 10 (sender_of hello_pkt) shm_zero = some (lA1, shmA1, out ++ [TOKEN]) ∧
      out.length = 4 + 5 ∧
      feed 2 zero_local shm_zero out = some (l1, shm1, out1) ∧
      shm1.received_count 2 = 0 + 1 ∧
      l1.received_pkt.token_flag = 0 ∧
      l1.received_pkt.to_ = 2 ∧
      l1.received_pkt.from_ = 0 ∧
      l1.received_pkt.length = 5 ∧
      (∀ i, i < 5 → l1.received_pkt.data i = [72, 69, 76, 76, 79].getD i 0) :=
  delivery_round_trip 0 2 hello_pkt (sender_of hello_pkt) zero_local shm_zero shm_zero 10
    (by decide) (by decide) (by decide) rfl rfl (by decide) (by decide)
    (by decide) rfl rfl (by decide) (by decide) (by decide) rfl rfl (by decide)

/-- C3 fails as stated.  Station 0 sends `{to: 2, from: 0, length: 1, data:
[0xFF]}`: the bytes on the wire are `0, 2, 0, 1, 0xFF` and then the token.
Station 2, listening with an empty buffer, takes the payload byte for the
token: it relays the five bytes, 4 bytes stay in its buffer, no frame is
decoded and `received_count[2]` stays 0.  And a frame of length 17, within the
250 of the claim, is not received at all: its 21st byte has no place in
`pkt_buffer`. -/
theorem delivery_counterexample :
    (transmit 0 10 (sender_of ff_pkt) shm_zero).map (fun r => r.2.2) =
        some [0, 2, 0, 1, 0xFF, TOKEN] ∧
      (feed 2 zero_local shm_zero [0, 2, 0, 1, 0xFF]).map
          (fun r => (r.2.2, r.1.pkt_bytes_received, r.2.1.received_count 2)) =
        some ([0, 2, 0, 1, 0xFF], 4, 0) ∧
      (feed 2 zero_local shm_zero (wire (long_pkt 17))).isSome = false := by
  decide

/-- C4 fails on the code.  Station 2, listening with an empty buffer, receives a
frame of length 17 (21 bytes on the wire, none of them `TOKEN`): after 20 bytes
`pkt_bytes_received` is 20 and the frame is not complete, and the 21st byte is
written to `pkt_buffer[20]`, outside the array of 20 bytes; the frame is not
reassembled.  The same happens at the 21st byte of a frame of length 250. -/
theorem boundary_length_overrun :
    (feed 2 zero_local shm_zero ((wire (long_pkt 17)).take 20)).map
        (fun r => (r.1.pkt_bytes_received, r.2.1.received_count 2)) = some (20, 0) ∧
      (feed 2 zero_local shm_zero (wire (long_pkt 17))).isSome = false ∧
      (feed 2 zero_local shm_zero ((wire (long_pkt 250)).take 20)).map
        (fun r => (r.1.pkt_bytes_received, r.2.1.received_count 2)) = some (20, 0) ∧
      (feed 2 zero_local shm_zero (wire (long_pkt 250))).isSome = false := by
  decide

/-! ## Edges and semaphores -/

theorem init_eq (u : Nat → NodeLocal) :
    init u =
      { sem := Function.update (Function.update sem_setval (EMPTY_SEM (N_NODES - 1)) 0)
                 (FULL_SEM (N_NODES - 1)) 1,
        shm := { shm_zero with ring := Function.update shm_zero.ring (N_NODES - 1) TOKEN },
        loc := fun i => local_init (u i),
        pc := fun _ => PC.loop } := by
  rfl

theorem reader_eq_iff (e i : Nat) (he : e < N_NODES) (hi : i < N_NODES) :
    reader e = i ↔ e = incoming_edge i := by
  unfold reader incoming_edge N_NODES at *
  omega

theorem edge_ok_init (u : Nat → NodeLocal) (e : Nat) (he : e < N_NODES) :
    edge_ok (init u) e := by
  unfold N_NODES at he
  interval_cases e <;> rfl

/-- What a step of a station does to the semaphores and to the places. -/
theorem node_step_sem_pc (i : Nat) (s s1 : System) (h : node_step i s = some s1) :
    (s.pc i = PC.loop ∧ s1.sem = s.sem ∧
      ∃ p, s1.pc = Function.update s.pc i p ∧
        (p = PC.exited ∨ p = PC.waitRecv ∨ ∃ k, p = PC.waitSend k)) ∨
    (∃ k, s.pc i = PC.waitSend k ∧ 0 < s.sem (EMPTY_SEM i) ∧
      s1.sem = Function.update s.sem (EMPTY_SEM i) (s.sem (EMPTY_SEM i) - 1) ∧
      s1.pc = Function.update s.pc i (PC.doSend k)) ∨
    (∃ k, s.pc i = PC.doSend k ∧
      s1.sem = Function.update s.sem (FULL_SEM i) (s.sem (FULL_SEM i) + 1) ∧
      s1.pc = Function.update s.pc i PC.loop) ∨
    (s.pc i = PC.waitRecv ∧ 0 < s.sem (FULL_SEM (incoming_edge i)) ∧
      s1.sem = Function.update s.sem (FULL_SEM (incoming_edge i))
        (s.sem (FULL_SEM (incoming_edge i)) - 1) ∧
      s1.pc = Function.update s.pc i PC.doRecv) ∨
    (s.pc i = PC.doRecv ∧
      s1.sem = Function.update s.sem (EMPTY_SEM (incoming_edge i))
        (s.sem (EMPTY_SEM (incoming_edge i)) + 1) ∧
      ∃ p, s1.pc = Function.update s.pc i p ∧ (p = PC.loop ∨ ∃ k, p = PC.waitSend k)) := by
  unfold node_step at h
  split at h
  · rename_i hpc
    left
    refine ⟨hpc, ?_⟩
    split_ifs at h with h1 h2
    · cases h; exact ⟨rfl, _, rfl, Or.inl rfl⟩
    · split at h
      · cases h; exact ⟨rfl, _, rfl, Or.inr (Or.inr ⟨_, rfl⟩)⟩
      · cases h
    · cases h; exact ⟨rfl, _, rfl, Or.inr (Or.inl rfl)⟩
  · rename_i k hpc
    right; left
    split_ifs at h with h1
    cases h
    exact ⟨k, hpc, h1, rfl, rfl⟩
  · rename_i k hpc
    right; right; left
    cases h
    exact ⟨k, hpc, rfl, rfl⟩
  · rename_i hpc
    right; right; right; left
    split_ifs at h with h1
    cases h
    exact ⟨hpc, h1, rfl, rfl⟩
  · rename_i hpc
    right; right; right; right
    split at h
    · cases h
      rename_i r _
      refine ⟨hpc, rfl, _, rfl, ?_⟩
      cases r with
      | none => exact Or.inl rfl
      | some k => exact Or.inr ⟨k, rfl⟩
    · cases h
  · cases h

theorem reader_ne_self (e : Nat) : reader e ≠ e := by
  unfold reader N_NODES at *; omega

theorem is_doSend_doSend (k : SendReq) : is_doSend (PC.doSend k) = true := rfl

theorem is_doSend_waitSend (k : SendReq) : is_doSend (PC.waitSend k) = false := rfl

theorem is_doSend_loop : is_doSend PC.loop = false := rfl

theorem is_doSend_waitRecv : is_doSend PC.waitRecv = false := rfl

theorem is_doSend_doRecv : is_doSend PC.doRecv = false := rfl

theorem is_doSend_exited : is_doSend PC.exited = false := rfl

theorem edge_node_step (i : Nat) (s s1 : System) (hi : i < N_NODES)
    (h : node_step i s = some s1) (e : Nat) (he : e < N_NODES) (hok : edge_ok s e) :
    edge_ok s1 e ∧
    (writes_edge (Action.node i) s e = true → slot_full s e = false ∧ slot_full s1 e = true) ∧
    (reads_edge (Action.node i) s e = true → slot_full s e = true ∧ slot_full s1 e = false) ∧
    (writes_edge (Action.node i) s e = false → reads_edge (Action.node i) s e = false →
      slot_full s1 e = slot_full s e) := by
  have hre := reader_ne_self e
  have hri := reader_eq_iff e i he hi
  unfold edge_ok writing reading at hok ⊢
  unfold slot_full writes_edge reads_edge
  have g1 : FULL_SEM e ≠ EMPTY_SEM e := by unfold FULL_SEM EMPTY_SEM; omega
  have g2 : EMPTY_SEM e ≠ FULL_SEM e := by unfold FULL_SEM EMPTY_SEM; omega
  by_cases h1 : e = i
  · subst h1
    have h2 : incoming_edge e ≠ e := fun h => hre (hri.mpr h.symm)
    have h3 : EMPTY_SEM e ≠ EMPTY_SEM (incoming_edge e) := by
      unfold EMPTY_SEM; omega
    have h4 : FULL_SEM e ≠ FULL_SEM (incoming_edge e) := by
      unfold FULL_SEM; omega
    have h5 : FULL_SEM e ≠ EMPTY_SEM (incoming_edge e) := by
      unfold FULL_SEM EMPTY_SEM; omega
    have h6 : EMPTY_SEM e ≠ FULL_SEM (incoming_edge e) := by
      unfold FULL_SEM EMPTY_SEM; omega
    rcases node_step_sem_pc e s s1 h with
      ⟨hpc, hsem, p, hp, hq⟩ | ⟨k, hpc, hpos, hsem, hp⟩ | ⟨k, hpc, hsem, hp⟩ |
      ⟨hpc, hpos, hsem, hp⟩ | ⟨hpc, hsem, p, hp, hq⟩
    · rw [hsem, hp]
      by_cases hrd : s.pc (reader e) = PC.doRecv <;>
      rcases hq with rfl | rfl | ⟨k, rfl⟩ <;>
      simp [hpc, hrd, Function.update_apply, hre, outgoing_edge, g1, g2, h2, h3, h4, h5, h6,
        is_doSend_doSend, is_doSend_waitSend, is_doSend_loop, is_doSend_waitRecv,
        is_doSend_doRecv, is_doSend_exited] at hok ⊢ <;>
      omega
    · rw [hsem, hp]
      by_cases hrd : s.pc (reader e) = PC.doRecv <;>
      simp [hpc, hrd, Function.update_apply, hre, outgoing_edge, g1, g2, h2, h3, h4, h5, h6,
        is_doSend_doSend, is_doSend_waitSend, is_doSend_loop, is_doSend_waitRecv,
        is_doSend_doRecv, is_doSend_exited] at hok ⊢ <;>
      omega
    · rw [hsem, hp]
      by_cases hrd : s.pc (reader e) = PC.doRecv <;>
      simp [hpc, hrd, Function.update_apply, hre, outgoing_edge, g1, g2, h2, h3, h4, h5, h6,
        is_doSend_doSend, is_doSend_waitSend, is_doSend_loop, is_doSend_waitRecv,
        is_doSend_doRecv, is_doSend_exited] at hok ⊢ <;>
      omega
    · rw [hsem, hp]
      by_cases hrd : s.pc (reader e) = PC.doRecv <;>
      simp [hpc, hrd, Function.update_apply, hre, outgoing_edge, g1, g2, h2, h3, h4, h5, h6,
        is_doSend_doSend, is_doSend_waitSend, is_doSend_loop, is_doSend_waitRecv,
        is_doSend_doRecv, is_doSend_exited] at hok ⊢ <;>
      omega
    · rw [hsem, hp]
      by_cases hrd : s.pc (reader e) = PC.doRecv <;>
      rcases hq with rfl | ⟨k, rfl⟩ <;>
      simp [hpc, hrd, Function.update_apply, hre, outgoing_edge, g1, g2, h2, h3, h4, h5, h6,
        is_doSend_doSend, is_doSend_waitSend, is_doSend_loop, is_doSend_waitRecv,
        is_doSend_doRecv, is_doSend_exited] at hok ⊢ <;>
      omega
  · have h1' : i ≠ e := fun h => h1 h.symm
    have h3 : EMPTY_SEM e ≠ EMPTY_SEM i := by unfold EMPTY_SEM; omega
    have h4 : FULL_SEM e ≠ FULL_SEM i := by unfold FULL_SEM; omega
    have h5 : FULL_SEM e ≠ EMPTY_SEM i := by unfold FULL_SEM EMPTY_SEM; omega
    have h6 : EMPTY_SEM e ≠ FULL_SEM i := by unfold FULL_SEM EMPTY_SEM; omega
    by_cases h2 : e = incoming_edge i
    · have hr : reader e = i := hri.mpr h2
      have h2' : incoming_edge i = e := h2.symm
      rcases node_step_sem_pc i s s1 h with
        ⟨hpc, hsem, p, hp, hq⟩ | ⟨k, hpc, hpos, hsem, hp⟩ | ⟨k, hpc, hsem, hp⟩ |
        ⟨hpc, hpos, hsem, hp⟩ | ⟨hpc, hsem, p, hp, hq⟩
      · rw [hsem, hp]
        by_cases hw : is_doSend (s.pc e) = true <;>
        rcases hq with rfl | rfl | ⟨k, rfl⟩ <;>
        simp [hpc, hr, hw, Function.update_apply, h1, h1', outgoing_edge, g1, g2, h2', h3, h4,
          h5, h6] at hok ⊢ <;>
        omega
      · rw [hsem, hp]
        by_cases hw : is_doSend (s.pc e) = true <;>
        simp [hpc, hr, hw, Function.update_apply, h1, h1', outgoing_edge, g1, g2, h2', h3, h4,
          h5, h6] at hok ⊢ <;>
        omega
      · rw [hsem, hp]
        by_cases hw : is_doSend (s.pc e) = true <;>
        simp [hpc, hr, hw, Function.update_apply, h1, h1', outgoing_edge, g1, g2, h2', h3, h4,
          h5, h6] at hok ⊢ <;>
        omega
      · rw [h2'] at hsem hpos
        rw [hsem, hp]
        by_cases hw : is_doSend (s.pc e) = true <;>
        simp [hpc, hr, hw, Function.update_apply, h1, h1', outgoing_edge, g1, g2, h2', h3, h4,
          h5, h6] at hok ⊢ <;>
        omega
      · rw [h2'] at hsem
        rw [hsem, hp]
        by_cases hw : is_doSend (s.pc e) = true <;>
        rcases hq with rfl | ⟨k, rfl⟩ <;>
        simp [hpc, hr, hw, Function.update_apply, h1, h1', outgoing_edge, g1, g2, h2', h3, h4,
          h5, h6] at hok ⊢ <;>
        omega
    · have hr : reader e ≠ i := fun h => h2 (hri.mp h)
      have h2' : incoming_edge i ≠ e := fun h => h2 h.symm
      have h8 : EMPTY_SEM e ≠ EMPTY_SEM (incoming_edge i) := by unfold EMPTY_SEM; omega
      have h9 : FULL_SEM e ≠ FULL_SEM (incoming_edge i) := by unfold FULL_SEM; omega
      have h10 : FULL_SEM e ≠ EMPTY_SEM (incoming_edge i) := by
        unfold FULL_SEM EMPTY_SEM; omega
      have h11 : EMPTY_SEM e ≠ FULL_SEM (incoming_edge i) := by
        unfold FULL_SEM EMPTY_SEM; omega
      have hs1 : s1.pc e = s.pc e ∧ s1.pc (reader e) = s.pc (reader e) ∧
          s1.sem (EMPTY_SEM e) = s.sem (EMPTY_SEM e) ∧
          s1.sem (FULL_SEM e) = s.sem (FULL_SEM e) := by
        rcases node_step_sem_pc i s s1 h with
          ⟨hpc, hsem, p, hp, hq⟩ | ⟨k, hpc, hpos, hsem, hp⟩ | ⟨k, hpc, hsem, hp⟩ |
          ⟨hpc, hpos, hsem, hp⟩ | ⟨hpc, hsem, p, hp, hq⟩ <;>
        rw [hsem, hp] <;>
        simp [Function.update_apply, h1, hr, h3, h4, h5, h6, h8, h9, h10, h11]
      obtain ⟨e1, e2, e3, e4⟩ := hs1
      rw [e1, e2, e3, e4]
      simp [outgoing_edge, h1', h2']
      exact hok

/-- What a timeout does: the station goes back to the head of the loop or
leaves it; nothing else changes. -/
theorem timeout_step_effect (i : Nat) (s s1 : System) (h : timeout_step i s = some s1) :
    s1.sem = s.sem ∧ s1.shm = s.shm ∧ s1.loc = s.loc ∧
    ((∃ k, s.pc i = PC.waitSend k ∧ s.sem (EMPTY_SEM i) = 0) ∨
      (s.pc i = PC.waitRecv ∧ s.sem (FULL_SEM (incoming_edge i)) = 0)) ∧
    s1.pc = Function.update s.pc i (if s.shm.terminate ≠ 0 then PC.exited else PC.loop) := by
  unfold timeout_step at h
  split at h
  · rename_i k hpc
    by_cases h1 : s.sem (EMPTY_SEM (outgoing_edge i)) = 0
    · rw [if_pos h1] at h
      cases h
      exact ⟨rfl, rfl, rfl, Or.inl ⟨k, hpc, h1⟩, rfl⟩
    · rw [if_neg h1] at h
      cases h
  · rename_i hpc
    by_cases h1 : s.sem (FULL_SEM (incoming_edge i)) = 0
    · rw [if_pos h1] at h
      cases h
      exact ⟨rfl, rfl, rfl, Or.inr ⟨hpc, h1⟩, rfl⟩
    · rw [if_neg h1] at h
      cases h
  · cases h

theorem edge_timeout_step (i : Nat) (s s1 : System)
    (h : timeout_step i s = some s1) (e : Nat) (hok : edge_ok s e) :
    edge_ok s1 e ∧ slot_full s1 e = slot_full s e := by
  obtain ⟨hsem, _, _, hpc, hp⟩ := timeout_step_effect i s s1 h
  unfold edge_ok writing reading at hok ⊢
  unfold slot_full
  rw [hsem, hp]
  have hw : is_doSend (Function.update s.pc i
      (if s.shm.terminate ≠ 0 then PC.exited else PC.loop) e) = is_doSend (s.pc e) := by
    rw [Function.update_apply]
    split_ifs with h1 h2
    · subst h1
      rcases hpc with ⟨k, hk, _⟩ | ⟨hk, _⟩ <;> rw [hk] <;> rfl
    · subst h1
      rcases hpc with ⟨k, hk, _⟩ | ⟨hk, _⟩ <;> rw [hk] <;> rfl
    · rfl
  have hr : (Function.update s.pc i
      (if s.shm.terminate ≠ 0 then PC.exited else PC.loop) (reader e) = PC.doRecv) ↔
      (s.pc (reader e) = PC.doRecv) := by
    rw [Function.update_apply]
    split_ifs with h1 h2
    · rw [h1]
      rcases hpc with ⟨k, hk, _⟩ | ⟨hk, _⟩ <;> rw [hk] <;> simp
    · rw [h1]
      rcases hpc with ⟨k, hk, _⟩ | ⟨hk, _⟩ <;> rw [hk] <;> simp
    · rfl
  rw [hw]
  simp only [hr]
  exact ⟨hok, trivial⟩

/-- One step of the program and one edge: the slot stays in one hand, a write
finds the slot without a byte and leaves one in it, a read finds a byte and
takes it, and no other step changes whether the slot holds a byte. -/
theorem edge_step (a : Action) (s s1 : System) (h : step a s = some s1) (e : Nat)
    (he : e < N_NODES) (hok : edge_ok s e) :
    edge_ok s1 e ∧
    (writes_edge a s e = true → slot_full s e = false ∧ slot_full s1 e = true) ∧
    (reads_edge a s e = true → slot_full s e = true ∧ slot_full s1 e = false) ∧
    (writes_edge a s e = false → reads_edge a s e = false →
      slot_full s1 e = slot_full s e) := by
  cases a with
  | node i =>
    simp only [step] at h
    split_ifs at h with hi
    exact edge_node_step i s s1 hi h e he hok
  | timeout i =>
    simp only [step] at h
    split_ifs at h with hi
    obtain ⟨h1, h2⟩ := edge_timeout_step i s s1 h e hok
    refine ⟨h1, ?_, ?_, fun _ _ => h2⟩
    · intro hw; simp [writes_edge] at hw
    · intro hw; simp [reads_edge] at hw
  | inject n p =>
    simp only [step] at h
    split_ifs at h with hi
    cases h
    refine ⟨hok, ?_, ?_, fun _ _ => rfl⟩
    · intro hw; simp [writes_edge] at hw
    · intro hw; simp [reads_edge] at hw
  | terminate =>
    simp only [step] at h
    cases h
    refine ⟨hok, ?_, ?_, fun _ _ => rfl⟩
    · intro hw; simp [writes_edge] at hw
    · intro hw; simp [reads_edge] at hw

theorem edge_ok_run (e : Nat) (he : e < N_NODES) (acts : List Action) :
    ∀ (s s1 : System), run acts s = some s1 → edge_ok s e → edge_ok s1 e := by
  induction acts with
  | nil =>
    intro s s1 h hok
    simp only [run] at h
    cases h
    exact hok
  | cons a acts ih =>
    intro s s1 h hok
    rw [run] at h
    cases hst : step a s with
    | none => rw [hst] at h; cases h
    | some s2 =>
      rw [hst] at h
      exact ih s2 s1 h (edge_step a s s2 hst e he hok).1

/-- Writes and reads of an edge alternate, and the next one is a read exactly
when the slot holds a byte. -/
theorem edge_events_alternate (e : Nat) (he : e < N_NODES) (acts : List Action) :
    ∀ (s : System), edge_ok s e →
      List.Chain' (fun x y => x ≠ y) (edge_events e acts s) ∧
      ∀ ev, (edge_events e acts s).head? = some ev →
        ev = if slot_full s e = true then EdgeEvent.read else EdgeEvent.write := by
  induction acts with
  | nil =>
    intro s _
    simp [edge_events]
  | cons a acts ih =>
    intro s hok
    rw [edge_events]
    cases hst : step a s with
    | none => simp
    | some s2 =>
      obtain ⟨hok2, hw, hr, hn⟩ := edge_step a s s2 hst e he hok
      obtain ⟨ih1, ih2⟩ := ih s2 hok2
      simp only
      by_cases h1 : writes_edge a s e = true
      · obtain ⟨hb, ha⟩ := hw h1
        rw [if_pos h1]
        simp only [List.singleton_append, List.head?_cons, Option.some.injEq]
        refine ⟨?_, ?_⟩
        · rw [List.chain'_cons']
          refine ⟨?_, ih1⟩
          intro y hy
          rw [ih2 y hy, ha]
          simp
        · intro ev hev
          rw [← hev, hb]
          simp
      · by_cases h2 : reads_edge a s e = true
        · obtain ⟨hb, ha⟩ := hr h2
          rw [if_neg h1, if_pos h2]
          simp only [List.singleton_append, List.head?_cons, Option.some.injEq]
          refine ⟨?_, ?_⟩
          · rw [List.chain'_cons']
            refine ⟨?_, ih1⟩
            intro y hy
            rw [ih2 y hy, ha]
            simp
          · intro ev hev
            rw [← hev, hb]
            simp
        · have hsame := hn (by simpa using h1) (by simpa using h2)
          rw [if_neg h1, if_neg h2]
          simp only [List.nil_append]
          refine ⟨ih1, ?_⟩
          intro ev hev
          rw [ih2 ev hev, hsame]

theorem slot_full_init (u : Nat → NodeLocal) (e : Nat) (he : e < N_NODES) :
    slot_full (init u) e = decide (e = N_NODES - 1) := by
  unfold N_NODES at he
  interval_cases e <;> rfl

/-- `main` reaches `init` from the semaphore values it sets: `EMPTY` 1 and
`FULL` 0 on every edge, then the wait of line 92 and the write and signal of
lines 93-94. -/
theorem main_seed (u : Nat → NodeLocal) :
    (∀ e, e < N_NODES → (pre_seed u).sem (EMPTY_SEM e) = 1 ∧ (pre_seed u).sem (FULL_SEM e) = 0) ∧
    ∃ s, seed_wait (pre_seed u) = some s ∧
      s.sem (EMPTY_SEM (N_NODES - 1)) = 0 ∧ s.sem (FULL_SEM (N_NODES - 1)) = 0 ∧
      seed_write s = init u := by
  refine ⟨?_, _, rfl, rfl, rfl, rfl⟩
  intro e he
  unfold N_NODES at he
  interval_cases e <;> exact ⟨rfl, rfl⟩

/-! ## Claims about the ring -/

/-- C9 (bounded buffer invariant).  In every state the program reaches from the
state `main` builds, by any steps of the stations, timeouts, injections and the
setting of `terminate`, and for every edge `e`: `EMPTY(e)` and `FULL(e)` are 0
or 1 and their sum is at most 1.  Moreover the writes and reads of `ring[e]`,
the write of the token by `main` included, alternate strictly, and the first of
them is a write: `ring[e]` is never written twice without a read in
between. -/
theorem bounded_buffer (u : Nat → NodeLocal) (acts : List Action) (s : System) (e : Nat)
    (hrun : run acts (init u) = some s) (he : e < N_NODES) :
    (s.sem (EMPTY_SEM e) = 0 ∨ s.sem (EMPTY_SEM e) = 1) ∧
    (s.sem (FULL_SEM e) = 0 ∨ s.sem (FULL_SEM e) = 1) ∧
    s.sem (EMPTY_SEM e) + s.sem (FULL_SEM e) ≤ 1 ∧
    List.Chain' (fun x y => x ≠ y) (seed_events e ++ edge_events e acts (init u)) ∧
    (seed_events e ++ edge_events e acts (init u)).head? ≠ some EdgeEvent.read := by
  have hok := edge_ok_run e he acts (init u) s hrun (edge_ok_init u e he)
  obtain ⟨hch, hhd⟩ := edge_events_alternate e he acts (init u) (edge_ok_init u e he)
  have hfull := slot_full_init u e he
  unfold edge_ok at hok
  refine ⟨by omega, by omega, by omega, ?_, ?_⟩
  · unfold seed_events
    by_cases h3 : e = N_NODES - 1
    · rw [if_pos h3, List.singleton_append, List.chain'_cons']
      refine ⟨?_, hch⟩
      intro y hy
      rw [hhd y hy, hfull]
      simp [h3]
    · rw [if_neg h3, List.nil_append]
      exact hch
  · unfold seed_events
    by_cases h3 : e = N_NODES - 1
    · rw [if_pos h3]
      simp
    · rw [if_neg h3, List.nil_append]
      intro hr
      have := hhd _ hr
      rw [hfull] at this
      simp [h3] at this

/-- C9, at the run `dup_trace` (51 steps of the stations and one
injection) and edge 0. -/
theorem bounded_buffer_witness :
    run dup_trace (init fun _ => zero_local) =
      some (end_state dup_trace (init fun _ => zero_local)) ∧
    ((end_state dup_trace (init fun _ => zero_local)).sem (EMPTY_SEM 0) = 0 ∨
      (end_state dup_trace (init fun _ => zero_local)).sem (EMPTY_SEM 0) = 1) ∧
    ((end_state dup_trace (init fun _ => zero_local)).sem (FULL_SEM 0) = 0 ∨
      (end_state dup_trace (init fun _ => zero_local)).sem (FULL_SEM 0) = 1) ∧
    (end_state dup_trace (init fun _ => zero_local)).sem (EMPTY_SEM 0) +
      (end_state dup_trace (init fun _ => zero_local)).sem (FULL_SEM 0) ≤ 1 ∧
    List.Chain' (fun x y => x ≠ y)
      (seed_events 0 ++ edge_events 0 dup_trace (init fun _ => zero_local)) ∧
    (seed_events 0 ++ edge_events 0 dup_trace (init fun _ => zero_local)).head? ≠
      some EdgeEvent.read :=
  ⟨rfl, bounded_buffer (fun _ => zero_local) dup_trace _ 0 rfl (by decide)⟩


/-! ## The token -/

theorem cnt_succ (p : Nat → Bool) (n : Nat) :
    cnt p (n + 1) = cnt p n + (if p n = true then 1 else 0) := by
  unfold cnt
  rw [List.range_succ, List.filter_append, List.length_append]
  by_cases h : p n = true
  · simp [h]
  · simp [h]

theorem cnt_congr (p q : Nat → Bool) (n : Nat) (h : ∀ j, j < n → q j = p j) :
    cnt q n = cnt p n := by
  induction n with
  | zero => rfl
  | succ n ih =>
    rw [cnt_succ, cnt_succ, ih (fun j hj => h j (by omega)), h n (by omega)]

theorem cnt_change (p q : Nat → Bool) (n a : Nat) (ha : a < n)
    (h : ∀ j, j < n → j ≠ a → q j = p j) :
    cnt q n + (if p a = true then 1 else 0) = cnt p n + (if q a = true then 1 else 0) := by
  induction n with
  | zero => omega
  | succ n ih =>
    rw [cnt_succ, cnt_succ]
    by_cases han : a = n
    · subst han
      rw [cnt_congr p q a (fun j hj => h j (by omega) (by omega))]
      omega
    · have := ih (by omega) (fun j hj hja => h j (by omega) hja)
      rw [h n (by omega) (fun hn => han hn.symm)]
      omega

/-- The number of tokens is the same in two states that differ, as far as
tokens go, at one edge and one station where the token has passed from the one
to the other. -/
theorem token_count_change (s s1 : System) (i a : Nat) (hi : i < N_NODES) (ha : a < N_NODES)
    (hE : ∀ e, e < N_NODES → e ≠ a → edge_has_token s1 e = edge_has_token s e)
    (hN : ∀ j, j < N_NODES → j ≠ i → node_has_token s1 j = node_has_token s j)
    (hbal : (if edge_has_token s1 a = true then 1 else 0) +
        (if node_has_token s1 i = true then 1 else 0) =
      (if edge_has_token s a = true then 1 else 0) +
        (if node_has_token s i = true then 1 else 0)) :
    token_count s1 = token_count s := by
  unfold token_count
  have h1 := cnt_change (edge_has_token s) (edge_has_token s1) N_NODES a ha hE
  have h2 := cnt_change (node_has_token s) (node_has_token s1) N_NODES i hi hN
  omega

theorem on_sending_cases (i : Nat) (l l1 : NodeLocal) (shm shm1 : shared_ring) (k : SendReq)
    (h : on_sending i l shm = some (l1, shm1, k)) :
    shm1.ring = shm.ring ∧ shm1.pending = shm.pending ∧
    shm1.pending_valid = shm.pending_valid ∧
    ((∃ b, k = SendReq.txData b ∧ l1 = l ∧
        pkt_byte_at l.current_pkt l.pkt_index = some b ∧
        l.pkt_index < 4 + l.current_pkt.length) ∨
      (k = SendReq.txToken ∧ l1.sending = 0)) := by
  unfold on_sending at h
  simp only at h
  split_ifs at h with h1
  · split at h
    · rename_i b hb
      cases h
      exact ⟨rfl, rfl, rfl, Or.inl ⟨b, rfl, rfl, hb, h1⟩⟩
    · cases h
  · split at h
    · cases h
      exact ⟨rfl, rfl, rfl, Or.inr ⟨rfl, rfl⟩⟩
    · cases h

theorem on_byte_cases (i : Nat) (l l1 : NodeLocal) (shm shm1 : shared_ring) (byte : Nat)
    (r : Option SendReq) (h : on_byte i l shm byte = some (l1, shm1, r)) :
    shm1.ring = shm.ring ∧ shm1.pending = shm.pending ∧
    (∀ j, j ≠ i → shm1.pending_valid j = shm.pending_valid j) ∧
    ((byte = TOKEN ∧ shm.pending_valid i ≠ 0 ∧ r = none ∧ l1.sending = 1 ∧
        l1.current_pkt = shm.pending i ∧ shm1.pending_valid i = 0) ∨
      (byte = TOKEN ∧ r = some SendReq.fwdToken ∧ l1 = l ∧
        shm1.pending_valid = shm.pending_valid) ∨
      (byte ≠ TOKEN ∧ r = some (SendReq.fwdData byte) ∧ l1.sending = l.sending ∧
        l1.current_pkt = l.current_pkt ∧ shm1.pending_valid = shm.pending_valid)) := by
  unfold on_byte at h
  split at h
  · rename_i h1
    split at h
    · rename_i h2
      cases h
      refine ⟨rfl, rfl, ?_, Or.inl ⟨h1, h2, rfl, rfl, rfl, ?_⟩⟩
      · intro j hj
        simp only [Function.update_noteq hj]
      · simp only [Function.update_same]
    · cases h
      exact ⟨rfl, rfl, fun _ _ => rfl, Or.inr (Or.inl ⟨h1, rfl, rfl, rfl⟩)⟩
  · rename_i h1
    split at h
    · simp only at h
      split at h
      · split at h
        · split at h
          · split at h
            · cases h
              exact ⟨rfl, rfl, fun _ _ => rfl, Or.inr (Or.inr ⟨h1, rfl, rfl, rfl, rfl⟩)⟩
            · cases h
          · cases h
            exact ⟨rfl, rfl, fun _ _ => rfl, Or.inr (Or.inr ⟨h1, rfl, rfl, rfl, rfl⟩)⟩
        · cases h
      · cases h
        exact ⟨rfl, rfl, fun _ _ => rfl, Or.inr (Or.inr ⟨h1, rfl, rfl, rfl, rfl⟩)⟩
    · cases h

/-- What a step of station `i` does, place by place, to what the token
depends on. -/
theorem node_step_cases (i : Nat) (s s1 : System) (h : node_step i s = some s1) :
    ∃ l1 p1, s1.loc = Function.update s.loc i l1 ∧ s1.pc = Function.update s.pc i p1 ∧
      s1.shm.pending = s.shm.pending ∧
      (∀ j, j ≠ i → s1.shm.pending_valid j = s.shm.pending_valid j) ∧
      ((s.pc i = PC.loop ∧ s1.sem = s.sem ∧ s1.shm.ring = s.shm.ring ∧
          s1.shm.pending_valid = s.shm.pending_valid ∧
          ((p1 = PC.exited ∧ l1 = s.loc i) ∨
            (p1 = PC.waitRecv ∧ l1 = s.loc i ∧ (s.loc i).sending = 0) ∨
            (∃ b, p1 = PC.waitSend (SendReq.txData b) ∧ l1 = s.loc i ∧
              (s.loc i).sending ≠ 0 ∧
              pkt_byte_at (s.loc i).current_pkt (s.loc i).pkt_index = some b ∧
              (s.loc i).pkt_index < 4 + (s.loc i).current_pkt.length) ∨
            (p1 = PC.waitSend SendReq.txToken ∧ l1.sending = 0 ∧ (s.loc i).sending ≠ 0))) ∨
        (∃ k, s.pc i = PC.waitSend k ∧ p1 = PC.doSend k ∧ l1 = s.loc i ∧ s1.shm = s.shm ∧
          s1.sem = Function.update s.sem (EMPTY_SEM i) (s.sem (EMPTY_SEM i) - 1)) ∨
        (∃ k, s.pc i = PC.doSend k ∧ p1 = PC.loop ∧ l1.sending = (s.loc i).sending ∧
          l1.current_pkt = (s.loc i).current_pkt ∧
          s1.shm.ring = Function.update s.shm.ring i k.byte ∧
          s1.shm.pending_valid = s.shm.pending_valid ∧
          s1.sem = Function.update s.sem (FULL_SEM i) (s.sem (FULL_SEM i) + 1)) ∨
        (s.pc i = PC.waitRecv ∧ p1 = PC.doRecv ∧ l1 = s.loc i ∧ s1.shm = s.shm ∧
          0 < s.sem (FULL_SEM (incoming_edge i)) ∧
          s1.sem = Function.update s.sem (FULL_SEM (incoming_edge i))
            (s.sem (FULL_SEM (incoming_edge i)) - 1)) ∨
        (s.pc i = PC.doRecv ∧
          s1.sem = Function.update s.sem (EMPTY_SEM (incoming_edge i))
            (s.sem (EMPTY_SEM (incoming_edge i)) + 1) ∧
          s1.shm.ring = s.shm.ring ∧
          ((s.shm.ring (incoming_edge i) = TOKEN ∧ s.shm.pending_valid i ≠ 0 ∧
              p1 = PC.loop ∧ l1.sending = 1 ∧ l1.current_pkt = s.shm.pending i ∧
              s1.shm.pending_valid i = 0) ∨
            (s.shm.ring (incoming_edge i) = TOKEN ∧ p1 = PC.waitSend SendReq.fwdToken ∧
              l1 = s.loc i ∧ s1.shm.pending_valid = s.shm.pending_valid) ∨
            (s.shm.ring (incoming_edge i) ≠ TOKEN ∧
              p1 = PC.waitSend (SendReq.fwdData (s.shm.ring (incoming_edge i))) ∧
              l1.sending = (s.loc i).sending ∧ l1.current_pkt = (s.loc i).current_pkt ∧
              s1.shm.pending_valid = s.shm.pending_valid)))) := by
  have hself : s.loc = Function.update s.loc i (s.loc i) := (Function.update_eq_self i s.loc).symm
  unfold node_step at h
  split at h
  · rename_i hpc
    split at h
    · cases h
      exact ⟨s.loc i, PC.exited, hself, rfl, rfl, fun _ _ => rfl,
        Or.inl ⟨hpc, rfl, rfl, rfl, Or.inl ⟨rfl, rfl⟩⟩⟩
    · split at h
      · rename_i hsend
        split at h
        · rename_i l shm k hon
          cases h
          obtain ⟨hr, hp, hv, hk⟩ := on_sending_cases i _ _ _ _ _ hon
          refine ⟨l, PC.waitSend k, rfl, rfl, hp, fun j _ => by rw [hv],
            Or.inl ⟨hpc, rfl, hr, hv, ?_⟩⟩
          rcases hk with ⟨b, rfl, rfl, hb, hlt⟩ | ⟨rfl, hl⟩
          · exact Or.inr (Or.inr (Or.inl ⟨b, rfl, rfl, hsend, hb, hlt⟩))
          · exact Or.inr (Or.inr (Or.inr ⟨rfl, hl, hsend⟩))
        · cases h
      · rename_i hsend
        cases h
        exact ⟨s.loc i, PC.waitRecv, hself, rfl, rfl, fun _ _ => rfl,
          Or.inl ⟨hpc, rfl, rfl, rfl, Or.inr (Or.inl ⟨rfl, rfl, not_not.mp hsend⟩)⟩⟩
  · rename_i k hpc
    split at h
    · cases h
      exact ⟨s.loc i, PC.doSend k, hself, rfl, rfl, fun _ _ => rfl,
        Or.inr (Or.inl ⟨k, hpc, rfl, rfl, rfl, rfl⟩)⟩
    · cases h
  · rename_i k hpc
    cases h
    refine ⟨after_send (s.loc i) k, PC.loop, rfl, rfl, rfl, fun _ _ => rfl,
      Or.inr (Or.inr (Or.inl ⟨k, hpc, rfl, ?_, ?_, rfl, rfl, rfl⟩))⟩
    · cases k <;> rfl
    · cases k <;> rfl
  · rename_i hpc
    split at h
    · rename_i hpos
      cases h
      exact ⟨s.loc i, PC.doRecv, hself, rfl, rfl, fun _ _ => rfl,
        Or.inr (Or.inr (Or.inr (Or.inl ⟨hpc, rfl, rfl, rfl, hpos, rfl⟩)))⟩
    · cases h
  · rename_i hpc
    split at h
    · rename_i l shm r hon
      cases h
      obtain ⟨hr, hp, hv, hk⟩ := on_byte_cases i _ _ _ _ _ _ hon
      refine ⟨l, _, rfl, rfl, hp, hv,
        Or.inr (Or.inr (Or.inr (Or.inr ⟨hpc, rfl, hr, ?_⟩)))⟩
      rcases hk with ⟨hb, hpv, rfl, h1, h2, h3⟩ | ⟨hb, rfl, rfl, h3⟩ | ⟨hb, rfl, h1, h2, h3⟩
      · exact Or.inl ⟨hb, hpv, rfl, h1, h2, h3⟩
      · exact Or.inr (Or.inl ⟨hb, rfl, rfl, h3⟩)
      · exact Or.inr (Or.inr ⟨hb, rfl, h1, h2, h3⟩)
    · cases h
  · cases h

theorem edge_has_token_iff (s : System) (e : Nat) :
    edge_has_token s e = true ↔
      (s.shm.ring e = TOKEN ∧ (0 < s.sem (FULL_SEM e) ∨ s.pc (reader e) = PC.doRecv)) := by
  simp [edge_has_token]

theorem node_has_token_iff (s : System) (i : Nat) :
    node_has_token s i = true ↔ ((s.loc i).sending ≠ 0 ∨ pc_has_token (s.pc i) = true) := by
  simp [node_has_token]

theorem edge_same (s s1 : System) (e : Nat) (hr : s1.shm.ring e = s.shm.ring e)
    (hf : s1.sem (FULL_SEM e) = s.sem (FULL_SEM e))
    (hp : s1.pc (reader e) = PC.doRecv ↔ s.pc (reader e) = PC.doRecv) :
    edge_has_token s1 e = edge_has_token s e := by
  rw [Bool.eq_iff_iff, edge_has_token_iff, edge_has_token_iff, hr, hf, hp]

theorem node_same (s s1 : System) (j : Nat) (hl : s1.loc j = s.loc j) (hp : s1.pc j = s.pc j) :
    node_has_token s1 j = node_has_token s j := by
  unfold node_has_token
  rw [hl, hp]

theorem node_ok_same (s s1 : System) (j : Nat) (hl : s1.loc j = s.loc j)
    (hp : s1.pc j = s.pc j) (hpe : s1.shm.pending = s.shm.pending)
    (hv : s1.shm.pending_valid j = s.shm.pending_valid j) (h : node_ok s j) :
    node_ok s1 j := by
  unfold node_ok at h ⊢
  rw [hl, hp, hpe, hv]
  exact h

theorem pkt_byte_at_mem_wire (p : data_pkt) (k b : Nat) (h : pkt_byte_at p k = some b)
    (hk : k < 4 + p.length) : b ∈ wire p := by
  unfold pkt_byte_at at h
  unfold wire payload
  rcases k with _ | _ | _ | _ | k
  · simp at h; simp [h]
  · simp at h; simp [h]
  · simp at h; simp [h]
  · simp at h; simp [h]
  · simp at h
    have hk2 : k < p.length := by omega
    simp only [List.mem_append, List.mem_cons, List.mem_map, List.mem_range]
    right
    exact ⟨k, hk2, h.2⟩

theorem tok_free_mem (p : data_pkt) (h : tok_free p = true) (b : Nat) (hb : b ∈ wire p) :
    b ≠ TOKEN := by
  unfold tok_free at h
  rw [List.all_eq_true] at h
  simpa using h b hb

/-- Steps that change neither an edge nor whether station `i` holds the token. -/
theorem token_count_same (s s1 : System) (i : Nat) (hi : i < N_NODES)
    (hE : ∀ e, e < N_NODES → edge_has_token s1 e = edge_has_token s e)
    (hN : ∀ j, j < N_NODES → j ≠ i → node_has_token s1 j = node_has_token s j)
    (hi1 : node_has_token s1 i = node_has_token s i) :
    token_count s1 = token_count s := by
  apply token_count_change s s1 i i hi hi (fun e he _ => hE e he) hN
  rw [hE i hi, hi1]

theorem incoming_edge_facts (i : Nat) (hi : i < N_NODES) :
    incoming_edge i < N_NODES ∧ incoming_edge i ≠ i ∧ reader (incoming_edge i) = i := by
  unfold incoming_edge reader N_NODES at *
  omega

/-- An edge keeps its token status across a step of station `i` when its slot
and its `FULL` semaphore are untouched and `i`, if it is the reader, is not
about to read before or after. -/
theorem edge_same_step (s s1 : System) (i e : Nat) (p1 : PC)
    (hpc : s1.pc = Function.update s.pc i p1)
    (hr : s1.shm.ring e = s.shm.ring e)
    (hf : s1.sem (FULL_SEM e) = s.sem (FULL_SEM e))
    (h : reader e ≠ i ∨ (p1 ≠ PC.doRecv ∧ s.pc i ≠ PC.doRecv)) :
    edge_has_token s1 e = edge_has_token s e := by
  apply edge_same s s1 e hr hf
  rw [hpc, Function.update_apply]
  rcases h with h | ⟨h1, h0⟩
  · rw [if_neg h]
  · by_cases hre : reader e = i
    · rw [if_pos hre, hre]
      exact ⟨fun x => absurd x h1, fun x => absurd x h0⟩
    · rw [if_neg hre]

theorem update_sem_full_ne (sem : Nat → Nat) (a e v : Nat) (h : e ≠ a) :
    Function.update sem (FULL_SEM a) v (FULL_SEM e) = sem (FULL_SEM e) := by
  apply Function.update_noteq
  unfold FULL_SEM; omega

theorem update_sem_empty_full (sem : Nat → Nat) (a e v : Nat) :
    Function.update sem (EMPTY_SEM a) v (FULL_SEM e) = sem (FULL_SEM e) := by
  apply Function.update_noteq
  unfold FULL_SEM EMPTY_SEM; omega

theorem token_node_step (i : Nat) (s s1 : System) (hi : i < N_NODES)
    (h : node_step i s = some s1)
    (hedge : ∀ e, e < N_NODES → edge_ok s e)
    (hnode : ∀ j, j < N_NODES → node_ok s j) :
    (∀ j, j < N_NODES → node_ok s1 j) ∧ token_count s1 = token_count s := by
  obtain ⟨l1, p1, hloc, hpc, hpe, hpv, hcase⟩ := node_step_cases i s s1 h
  have hlj : ∀ j, j ≠ i → s1.loc j = s.loc j := fun j hj => by
    rw [hloc, Function.update_noteq hj]
  have hpj : ∀ j, j ≠ i → s1.pc j = s.pc j := fun j hj => by
    rw [hpc, Function.update_noteq hj]
  have hli : s1.loc i = l1 := by rw [hloc, Function.update_same]
  have hpi : s1.pc i = p1 := by rw [hpc, Function.update_same]
  have hN : ∀ j, j < N_NODES → j ≠ i → node_has_token s1 j = node_has_token s j :=
    fun j _ hj => node_same _ _ _ (hlj j hj) (hpj j hj)
  have hokj : ∀ j, j < N_NODES → j ≠ i → node_ok s1 j := fun j hjn hj =>
    node_ok_same s s1 j (hlj j hj) (hpj j hj) hpe (hpv j hj) (hnode j hjn)
  obtain ⟨hcur, hpend, hplace⟩ := hnode i hi
  suffices hmain : node_ok s1 i ∧ token_count s1 = token_count s by
    refine ⟨fun j hj => ?_, hmain.2⟩
    by_cases hji : j = i
    · rw [hji]; exact hmain.1
    · exact hokj j hj hji
  obtain ⟨hin1, hin2, hin3⟩ := incoming_edge_facts i hi
  unfold node_ok
  rw [hli, hpi, hpe]
  rcases hcase with ⟨hpc0, hsem, hring, hpvs, hsub⟩ | ⟨k, hpc0, rfl, rfl, hshm, hsem⟩ |
    ⟨k, hpc0, rfl, hls, hlc, hring, hpvs, hsem⟩ | ⟨hpc0, rfl, rfl, hshm, hpos, hsem⟩ |
    ⟨hpc0, hsem, hring, hsub⟩
  · -- the head of the loop
    rw [hpvs]
    have hE : ∀ p, p1 = p → p ≠ PC.doRecv → ∀ e, e < N_NODES →
        edge_has_token s1 e = edge_has_token s e := fun p hp hne e _ =>
      edge_same_step s s1 i e p1 hpc (by rw [hring]) (by rw [hsem])
        (Or.inr ⟨by rw [hp]; exact hne, by rw [hpc0]; exact PC.noConfusion⟩)
    rcases hsub with ⟨rfl, rfl⟩ | ⟨rfl, rfl, hs0⟩ | ⟨b, rfl, rfl, hs1, hb, hlt⟩ | ⟨rfl, hl0, hs1⟩
    · refine ⟨⟨hcur, hpend, trivial⟩, token_count_same s s1 i hi
        (hE _ rfl PC.noConfusion) hN ?_⟩
      rw [Bool.eq_iff_iff, node_has_token_iff, node_has_token_iff, hli, hpi, hpc0]
      simp [pc_has_token]
    · refine ⟨⟨hcur, hpend, hs0⟩, token_count_same s s1 i hi
        (hE _ rfl PC.noConfusion) hN ?_⟩
      rw [Bool.eq_iff_iff, node_has_token_iff, node_has_token_iff, hli, hpi, hpc0]
      simp [pc_has_token]
    · refine ⟨⟨hcur, hpend, hs1,
          tok_free_mem _ (hcur hs1) b (pkt_byte_at_mem_wire _ _ _ hb hlt)⟩,
        token_count_same s s1 i hi (hE _ rfl PC.noConfusion) hN ?_⟩
      rw [Bool.eq_iff_iff, node_has_token_iff, node_has_token_iff, hli, hpi, hpc0]
      simp [pc_has_token, SendReq.is_token]
    · refine ⟨⟨fun hx => absurd hl0 hx, hpend, hl0⟩,
        token_count_same s s1 i hi (hE _ rfl PC.noConfusion) hN ?_⟩
      rw [Bool.eq_iff_iff, node_has_token_iff, node_has_token_iff, hli, hpi, hpc0]
      simp [pc_has_token, SendReq.is_token, hl0, hs1]
  · -- the wait of a send returns
    rw [hshm]
    rw [hpc0] at hplace
    refine ⟨⟨hcur, hpend, hplace⟩, token_count_same s s1 i hi ?_ hN ?_⟩
    · intro e _
      exact edge_same_step s s1 i e _ hpc (by rw [hshm])
        (by rw [hsem]; exact update_sem_empty_full _ _ _ _)
        (Or.inr ⟨PC.noConfusion, by rw [hpc0]; exact PC.noConfusion⟩)
    · rw [Bool.eq_iff_iff, node_has_token_iff, node_has_token_iff, hli, hpi, hpc0]
      simp [pc_has_token]
  · -- the write of a send
    rw [hpvs, hls, hlc]
    rw [hpc0] at hplace
    refine ⟨⟨hcur, hpend, trivial⟩, ?_⟩
    apply token_count_change s s1 i i hi hi ?_ hN ?_
    · intro e _ hei
      exact edge_same_step s s1 i e _ hpc (by rw [hring, Function.update_noteq hei])
        (by rw [hsem]; exact update_sem_full_ne _ _ _ _ hei)
        (Or.inr ⟨PC.noConfusion, by rw [hpc0]; exact PC.noConfusion⟩)
    · have hok := hedge i hi
      unfold edge_ok writing reading at hok
      rw [hpc0] at hok
      simp only [is_doSend_doSend, if_true] at hok
      have hf0 : s.sem (FULL_SEM i) = 0 := by omega
      have hrd : s.pc (reader i) ≠ PC.doRecv := by
        intro hx; rw [if_pos hx] at hok; omega
      have e0 : edge_has_token s i = false := by
        rw [Bool.eq_false_iff, Ne, edge_has_token_iff]
        intro hx
        rcases hx.2 with h1 | h1
        · omega
        · exact hrd h1
      have e1 : edge_has_token s1 i = decide (k.byte = TOKEN) := by
        rw [Bool.eq_iff_iff, edge_has_token_iff, hring, hsem]
        simp
      have n0 : node_has_token s i = (decide ((s.loc i).sending ≠ 0) || k.is_token) := by
        unfold node_has_token; rw [hpc0]; rfl
      have n1 : node_has_token s1 i = decide ((s.loc i).sending ≠ 0) := by
        unfold node_has_token; rw [hli, hpi, hls]; simp [pc_has_token]
      rw [e0, e1, n0, n1]
      cases k with
      | txData b =>
        obtain ⟨ha, hb⟩ := hplace
        simp [SendReq.byte, SendReq.is_token, ha, hb]
      | fwdData b =>
        obtain ⟨ha, hb⟩ := hplace
        simp [SendReq.byte, SendReq.is_token, ha, hb]
      | txToken =>
        have ha : (s.loc i).sending = 0 := hplace
        simp [SendReq.byte, SendReq.is_token, ha]
      | fwdToken =>
        have ha : (s.loc i).sending = 0 := hplace
        simp [SendReq.byte, SendReq.is_token, ha]
  · -- the wait of the receive returns
    rw [hshm]
    rw [hpc0] at hplace
    refine ⟨⟨hcur, hpend, hplace⟩, token_count_same s s1 i hi ?_ hN ?_⟩
    · intro e he
      by_cases hee : e = incoming_edge i
      · rw [hee, Bool.eq_iff_iff, edge_has_token_iff, edge_has_token_iff, hshm, hin3, hpi]
        simp [hpos]
      · have hre : reader e ≠ i := fun hx => hee ((reader_eq_iff e i he hi).mp hx)
        exact edge_same_step s s1 i e _ hpc (by rw [hshm])
          (by rw [hsem]; exact update_sem_full_ne _ _ _ _ hee) (Or.inl hre)
    · rw [Bool.eq_iff_iff, node_has_token_iff, node_has_token_iff, hli, hpi, hpc0]
      simp [pc_has_token]
  · -- the read
    rw [hpc0] at hplace
    have hs0 : (s.loc i).sending = 0 := hplace
    have hok := hedge _ hin1
    unfold edge_ok writing reading at hok
    rw [hin3, hpc0] at hok
    simp only [if_true] at hok
    have hf0 : s.sem (FULL_SEM (incoming_edge i)) = 0 := by omega
    have hEfar : ∀ e, e < N_NODES → e ≠ incoming_edge i →
        edge_has_token s1 e = edge_has_token s e := by
      intro e he hee
      have hre : reader e ≠ i := fun hx => hee ((reader_eq_iff e i he hi).mp hx)
      exact edge_same_step s s1 i e _ hpc (by rw [hring])
        (by rw [hsem]; exact update_sem_empty_full _ _ _ _) (Or.inl hre)
    have e0 : edge_has_token s (incoming_edge i) =
        decide (s.shm.ring (incoming_edge i) = TOKEN) := by
      rw [Bool.eq_iff_iff, edge_has_token_iff, hin3, hpc0]
      simp
    have e1 : p1 ≠ PC.doRecv → edge_has_token s1 (incoming_edge i) = false := by
      intro hp1
      rw [Bool.eq_false_iff, Ne, edge_has_token_iff, hin3, hpi, hsem,
        update_sem_empty_full, hf0]
      intro hx
      rcases hx.2 with h1 | h1
      · omega
      · exact hp1 h1
    have n0 : node_has_token s i = false := by
      rw [Bool.eq_false_iff, Ne, node_has_token_iff, hpc0]
      simp [pc_has_token, hs0]
    rcases hsub with ⟨hb, hv, rfl, hl1, hl2, hv0⟩ | ⟨hb, rfl, rfl, hvs⟩ |
      ⟨hb, rfl, hl1, hl2, hvs⟩
    · refine ⟨⟨fun _ => by rw [hl2]; exact hpend hv, fun hx => absurd hv0 hx, trivial⟩, ?_⟩
      apply token_count_change s s1 i (incoming_edge i) hi hin1 hEfar hN
      have n1 : node_has_token s1 i = true := by
        rw [node_has_token_iff, hli, hl1]
        left; decide
      rw [e0, e1 PC.noConfusion, n0, n1]
      simp [hb]
    · rw [hvs]
      refine ⟨⟨hcur, hpend, hs0⟩, ?_⟩
      apply token_count_change s s1 i (incoming_edge i) hi hin1 hEfar hN
      have n1 : node_has_token s1 i = true := by
        rw [node_has_token_iff, hpi]
        right; rfl
      rw [e0, e1 PC.noConfusion, n0, n1]
      simp [hb]
    · rw [hvs, hl1, hl2]
      refine ⟨⟨hcur, hpend, hs0, hb⟩, ?_⟩
      apply token_count_change s s1 i (incoming_edge i) hi hin1 hEfar hN
      have n1 : node_has_token s1 i = false := by
        rw [Bool.eq_false_iff, Ne, node_has_token_iff, hli, hpi, hl1]
        simp [pc_has_token, hs0, SendReq.is_token]
      rw [e0, e1 PC.noConfusion, n0, n1]
      simp [hb]

theorem node_ok_init (u : Nat → NodeLocal) (j : Nat) : node_ok (init u) j := by
  unfold node_ok
  rw [init_eq]
  refine ⟨fun h => absurd rfl h, fun h => absurd rfl h, trivial⟩

theorem token_count_init (u : Nat → NodeLocal) : token_count (init u) = 1 := by
  rfl

/-- One step that keeps the token keeps the number of tokens. -/
theorem token_step (a : Action) (s s1 : System) (h : step a s = some s1)
    (hk : keeps_token a s = true)
    (hedge : ∀ e, e < N_NODES → edge_ok s e)
    (hnode : ∀ j, j < N_NODES → node_ok s j) :
    (∀ j, j < N_NODES → node_ok s1 j) ∧ token_count s1 = token_count s := by
  cases a with
  | node i =>
    simp only [step] at h
    split_ifs at h with hi
    exact token_node_step i s s1 hi h hedge hnode
  | timeout i =>
    simp only [step] at h
    split_ifs at h with hi
    obtain ⟨hsem, hshm, hloc, hwas, hpc⟩ := timeout_step_effect i s s1 h
    have hk0 : pc_has_token (s.pc i) = false := by
      simpa [keeps_token] using hk
    have hp1 : (if s.shm.terminate ≠ 0 then PC.exited else PC.loop) ≠ PC.doRecv := by
      split_ifs <;> exact PC.noConfusion
    have hp0 : s.pc i ≠ PC.doRecv := by
      rcases hwas with ⟨k, hk1, _⟩ | ⟨hk1, _⟩ <;> rw [hk1] <;> exact PC.noConfusion
    have hpt : pc_has_token (if s.shm.terminate ≠ 0 then PC.exited else PC.loop) = false := by
      split_ifs <;> rfl
    have hpl : ∀ x, place_ok x (if s.shm.terminate ≠ 0 then PC.exited else PC.loop) := by
      intro x; split_ifs <;> trivial
    refine ⟨?_, token_count_same s s1 i hi ?_ ?_ ?_⟩
    · intro j hj
      obtain ⟨h1, h2, h3⟩ := hnode j hj
      unfold node_ok
      rw [hloc, hshm, hpc]
      refine ⟨h1, h2, ?_⟩
      by_cases hji : j = i
      · rw [hji, Function.update_same]
        exact hpl _
      · rw [Function.update_noteq hji]
        exact h3
    · intro e _
      exact edge_same_step s s1 i e _ hpc (by rw [hshm]) (by rw [hsem]) (Or.inr ⟨hp1, hp0⟩)
    · intro j _ hji
      exact node_same s s1 j (by rw [hloc]) (by rw [hpc, Function.update_noteq hji])
    · unfold node_has_token
      rw [hloc, hpc, Function.update_same, hpt, hk0]
  | inject n p =>
    simp only [step] at h
    split_ifs at h with hi
    cases h
    have hk0 : tok_free p = true := hk
    refine ⟨?_, rfl⟩
    intro j hj
    obtain ⟨h1, h2, h3⟩ := hnode j hj
    refine ⟨h1, ?_, h3⟩
    show Function.update s.shm.pending_valid n 1 j ≠ 0 →
      tok_free (Function.update s.shm.pending n p j) = true
    by_cases hjn : j = n
    · rw [hjn, Function.update_same, Function.update_same]
      exact fun _ => hk0
    · rw [Function.update_noteq hjn, Function.update_noteq hjn]
      exact h2
  | terminate =>
    simp only [step] at h
    cases h
    exact ⟨hnode, rfl⟩

/-- Along a run whose steps keep the token, the number of tokens does not
change. -/
theorem token_run (acts : List Action) :
    ∀ (s s1 : System), run acts s = some s1 → all_keep acts s = true →
      (∀ e, e < N_NODES → edge_ok s e) → (∀ j, j < N_NODES → node_ok s j) →
      token_count s1 = token_count s := by
  induction acts with
  | nil =>
    intro s s1 h _ _ _
    simp only [run] at h
    cases h
    rfl
  | cons a acts ih =>
    intro s s1 h hk hedge hnode
    rw [run] at h
    rw [all_keep] at hk
    cases hst : step a s with
    | none => rw [hst] at h; cases h
    | some s2 =>
      rw [hst] at h hk
      simp only [Bool.and_eq_true] at hk
      obtain ⟨hn2, hc2⟩ := token_step a s s2 hst hk.1 hedge hnode
      rw [ih s2 s1 h hk.2 (fun e he => (edge_step a s s2 hst e he (hedge e he)).1) hn2, hc2]

/-- C1, as amended: token conservation.  From the state `main` builds, along
any run of steps of the stations, timeouts, injections and the setting of
`terminate` in which no wait to send the token (lines 133 and 163) times out
and no injected frame puts a TOKEN byte on the wire, every state reached holds
exactly one token: the edges with an unconsumed TOKEN byte and the stations
that hold the token are 1 together.  (A run is a sequence of defined steps: no
access outside an array, no `int` overflow.) -/
theorem token_conservation (u : Nat → NodeLocal) (acts : List Action) (s : System)
    (hrun : run acts (init u) = some s) (hkeep : all_keep acts (init u) = true) :
    token_count s = 1 := by
  rw [token_run acts (init u) s hrun hkeep (fun e he => edge_ok_init u e he)
    (fun j _ => node_ok_init u j)]
  exact token_count_init u

/-- C1 as amended, at the run `byte_loss_trace`: station 0 sends a frame of 4
bytes, and the wait of station 1 to send the last byte on times out (a data
byte is lost, the token is not). -/
theorem token_conservation_witness :
    run byte_loss_trace (init fun _ => zero_local) =
      some (end_state byte_loss_trace (init fun _ => zero_local)) ∧
    all_keep byte_loss_trace (init fun _ => zero_local) = true ∧
    token_count (end_state byte_loss_trace (init fun _ => zero_local)) = 1 :=
  ⟨rfl, by decide,
    token_conservation (fun _ => zero_local) byte_loss_trace _ rfl (by decide)⟩

/-- C1 fails as stated.  In `loss_trace` station 0 sends a frame of 4 bytes, finds
`ring[0]` still full when it waits to send the token, and the wait times out:
the state reached holds no token.  In `dup_trace`, without any timeout, station
0 sends a frame whose payload byte is 0xFF: the state reached holds two
tokens, the byte in `ring[0]` and the token station 0 holds while it sends. -/
theorem token_conservation_counterexample :
    (run loss_trace (init fun _ => zero_local)).map token_count = some 0 ∧
    (run dup_trace (init fun _ => zero_local)).map token_count = some 2 := by
  decide

/-- C2 fails on the code: a send that times out after the station has consumed
something is not retried.
(1) The sibling path that does retry: station 0, sending, times out in the wait
of line 121 with cursor 1; its next step is in the same wait, for the same
byte, with cursor 1.
(2) Station 0 has sent its frame, has counted it (`sent_count[0]` is 1) and has
left sending mode, and waits to send the token (line 133); one token is in the
ring.  The wait times out: the next step of station 0 is a wait to receive
(line 144), and no token is left.
(3) Station 1 has consumed the last byte of the frame and waits to send it on
(line 192).  The wait times out: the next step of station 1 is a wait to
receive, the byte is not sent. -/
theorem timeout_drops_pending :
    (run ([Action.inject 0 empty_pkt] ++ send1 0 ++ send1 0 ++
          [Action.node 0, Action.timeout 0, Action.node 0])
        (init fun _ => zero_local)).map (fun s => (s.pc 0, (s.loc 0).pkt_index)) =
      some (PC.waitSend (SendReq.txData 1), 1) ∧
    (run (four_bytes_out empty_pkt ++ [Action.node 0])
        (init fun _ => zero_local)).map
        (fun s => (s.pc 0, (s.loc 0).sending, s.shm.sent_count 0, token_count s)) =
      some (PC.waitSend SendReq.txToken, 0, 1, 1) ∧
    (run (loss_trace ++ [Action.node 0])
        (init fun _ => zero_local)).map (fun s => (s.pc 0, token_count s)) =
      some (PC.waitRecv, 0) ∧
    (run (four_bytes_out empty_pkt ++ send1 1)
        (init fun _ => zero_local)).map (fun s => (s.pc 1, s.shm.terminate)) =
      some (PC.waitSend (SendReq.fwdData 0), 0) ∧
    (run (byte_loss_trace ++ [Action.node 1])
        (init fun _ => zero_local)).map (fun s => (s.pc 1, s.sem (FULL_SEM 1))) =
      some (PC.waitRecv, 1) := by
  decide


/-- C6 fails on the code.  In the run `token_at_full_edge` station 1, with no
frame pending and `terminate` clear, has read `TOKEN` and waits to pass it on
(line 163); `EMPTY(1)` is 0 and one token is in the ring.  The wait times out:
the next step of station 1 is a wait to receive (line 144), `TOKEN` has not
been written to `ring[1]`, and no token is left in the ring. -/
theorem token_forward_timeout :
    (run token_at_full_edge (init fun _ => zero_local)).map
        (fun s => (s.pc 1, s.shm.pending_valid 1, s.shm.terminate, s.sem (EMPTY_SEM 1),
          token_count s)) =
      some (PC.waitSend SendReq.fwdToken, 0, 0, 0, 1) ∧
    (run (token_at_full_edge ++ [Action.timeout 1, Action.node 1])
        (init fun _ => zero_local)).map
        (fun s => (s.pc 1, (s.loc 1).sending, s.shm.ring 1, token_count s)) =
      some (PC.waitRecv, 0, 0, 0) := by
  decide

end TokenRing
